import Mathlib

/-!
Verification of the geosa-backend hydrographic anomaly-analysis engine.

The Python source is embedded shallowly over exact rationals: an IEEE double
is modelled as `Option ℚ`, where `none` stands for NaN and `some q` for a
finite value.  Arithmetic propagates NaN exactly as IEEE does (an operation
with a NaN operand yields NaN); overflow to infinity is not modelled, since
all values stay exact.  `np.sqrt` has no exact rational realisation, so the
definitions that need it are parametrised by a function `sq : ℚ → ℚ` standing
for the floating-point square root; none of the proved properties depend on
its values.  Grids are total functions `ℕ → ℕ → Option ℚ` together with an
explicit shape `(m, n)`; definitions only consult in-bounds cells.
-/

namespace Geosa

/-- Machine epsilon guard `1e-10` used throughout `ml_pipeline.py`. -/
def tiny : ℚ := 1 / 10 ^ 10

/-- NaN-propagating addition on modelled doubles. -/
def rAdd : Option ℚ → Option ℚ → Option ℚ
  | some a, some b => some (a + b)
  | _, _ => none

/-- NaN-propagating subtraction on modelled doubles. -/
def rSub : Option ℚ → Option ℚ → Option ℚ
  | some a, some b => some (a - b)
  | _, _ => none

/-- NaN-propagating multiplication on modelled doubles (IEEE: `0 * NaN = NaN`). -/
def rMul : Option ℚ → Option ℚ → Option ℚ
  | some a, some b => some (a * b)
  | _, _ => none

/-- NaN-propagating division.  Division by an exact zero is mapped to NaN;
the source guards every divisor away from zero, so this case is never
exercised by the proved theorems. -/
def rDiv : Option ℚ → Option ℚ → Option ℚ
  | some a, some b => if b = 0 then none else some (a / b)
  | _, _ => none

/-- NaN-propagating absolute value (`np.abs`). -/
def rAbs : Option ℚ → Option ℚ := Option.map (fun a => |a|)

/-- `np.minimum` against a scalar: propagates NaN, like numpy. -/
def rMinQ (v : Option ℚ) (c : ℚ) : Option ℚ := v.map (fun a => min a c)

/-- `np.nan_to_num(v, nan=0)`: a NaN becomes the finite value `0`. -/
def rNanToNum (v : Option ℚ) : ℚ := v.getD 0

/-- Strict `>` comparison with a NaN operand is false, as in IEEE. -/
def rGtB (v : Option ℚ) (c : ℚ) : Bool :=
  match v with
  | some a => decide (c < a)
  | none => false

/-- Ascending insertion of an element into a sorted list (helper for the
model of `np.sort`/`np.median`). -/
def insSorted (a : ℚ) : List ℚ → List ℚ
  | [] => [a]
  | b :: t => if a ≤ b then a :: b :: t else b :: insSorted a t

/-- Ascending sort of a rational list (models numpy's sort; the sort order
is all that `np.median` consumes). -/
def sortQ (l : List ℚ) : List ℚ := l.foldr insSorted []

/-- `np.median` over a nonempty list: middle element for odd length, mean of
the two middle elements for even length.  (The `[]` case returns `0`; numpy
would return NaN there, and every call site guards against it.) -/
def medianQ (l : List ℚ) : ℚ :=
  let s := sortQ l
  if s.length % 2 = 1 then s.getD (s.length / 2) 0
  else (s.getD (s.length / 2 - 1) 0 + s.getD (s.length / 2) 0) / 2

/-- `scipy.stats.median_abs_deviation` with its default `scale = 1.0`:
the median of absolute deviations from the median. -/
def madQ (l : List ℚ) : ℚ := medianQ (l.map (fun x => |x - medianQ l|))

/-- `ndarray.min()` over a nonempty list (the `[]` case is never reached by
the call sites that use it). -/
def listMin : List ℚ → ℚ
  | [] => 0
  | a :: t => t.foldl min a

/-- `ndarray.max()` over a nonempty list. -/
def listMax : List ℚ → ℚ
  | [] => 0
  | a :: t => t.foldl max a

/-- Arithmetic mean of a list (`np.mean`; call sites guard nonemptiness). -/
def meanQ (l : List ℚ) : ℚ := l.sum / l.length

/-- `np.nanmean` over modelled doubles: NaN entries are dropped; an
all-NaN list yields NaN. -/
def nanmeanL (l : List (Option ℚ)) : Option ℚ :=
  let v := l.filterMap id
  if v.isEmpty then none else some (meanQ v)

/-- `np.nanmedian` over modelled doubles: NaN entries are dropped; an
all-NaN list yields NaN. -/
def nanmedianL (l : List (Option ℚ)) : Option ℚ :=
  let v := l.filterMap id
  if v.isEmpty then none else some (medianQ v)

/-- `np.std` of a list (population standard deviation), with `sq` standing
for the floating-point square root. -/
def stdQ (sq : ℚ → ℚ) (l : List ℚ) : ℚ :=
  sq (meanQ (l.map (fun x => (x - meanQ l) ^ 2)))

/-! # Contour generation: `ContourGenerator._chaikin_smooth`
(`src/apps/api/src/domain/services/contour_generation.py`, lines 141-170). -/

/-- A polyline vertex (row/col or x/y pair of exact coordinates). -/
abbrev Pt := ℚ × ℚ

/-- One Chaikin pass over consecutive vertex pairs: each edge `(p0, p1)`
is replaced by its quarter points `q = 0.75 p0 + 0.25 p1` and
`r = 0.25 p0 + 0.75 p1`, exactly as the loop body does. -/
def chaikinPairs : List Pt → List Pt
  | p0 :: p1 :: rest =>
      (3/4 * p0.1 + 1/4 * p1.1, 3/4 * p0.2 + 1/4 * p1.2) ::
      (1/4 * p0.1 + 3/4 * p1.1, 1/4 * p0.2 + 3/4 * p1.2) ::
      chaikinPairs (p1 :: rest)
  | _ => []

/-- `np.allclose` on a pair of vertices with numpy defaults
`rtol = 1e-5`, `atol = 1e-8`. -/
def allcloseP (a b : Pt) : Bool :=
  decide (|a.1 - b.1| ≤ 1 / 10 ^ 8 + (1 / 10 ^ 5) * |b.1|) &&
  decide (|a.2 - b.2| ≤ 1 / 10 ^ 8 + (1 / 10 ^ 5) * |b.2|)

/-- One iteration of `_chaikin_smooth`: cut every consecutive edge, then
append the last point again only when the path is not flagged closed by
`np.allclose(result[0], result[-1])`.  (The empty path is returned
unchanged; the Python would fault indexing it, and `generate` never passes
one.) -/
def chaikinStep (l : List Pt) : List Pt :=
  match l.head?, l.getLast? with
  | some h, some z =>
      if allcloseP h z then chaikinPairs l else chaikinPairs l ++ [z]
  | _, _ => l

/-- `ContourGenerator._chaikin_smooth coords iterations`. -/
def chaikinSmooth (l : List Pt) (iterations : ℕ) : List Pt :=
  chaikinStep^[iterations] l

/-! # Confidence tiers: `AnomalyPolygonizer.polygonize`
(`ml_pipeline.py` lines 616-623) with the threshold defaults of
`ProcessingConfig.confidence_thresholds` (`config.py` lines 163-165). -/

/-- Confidence tier enumeration from `domain/entities.py`. -/
inductive ConfidenceLevelE where
  | low
  | medium
  | high
  deriving Repr, DecidableEq

/-- Numeric rank of a confidence tier (low < medium < high), used to state
monotonicity. -/
def ConfidenceLevelE.rank : ConfidenceLevelE → ℕ
  | .low => 0
  | .medium => 1
  | .high => 2

/-- The tier-assignment chain of `polygonize`: probability at least the
high threshold gives HIGH, else at least the medium threshold gives
MEDIUM, else LOW.  The configured defaults are high `0.8`, medium `0.5`. -/
def confidenceLevel (hi med p : ℚ) : ConfidenceLevelE :=
  if hi ≤ p then .high
  else if med ≤ p then .medium
  else .low

/-- Tier assignment on a possibly-NaN mean probability: every comparison
with NaN is false, so a NaN probability falls through to LOW. -/
def confidenceLevelO (hi med : ℚ) (p : Option ℚ) : ConfidenceLevelE :=
  match p with
  | some q => confidenceLevel hi med q
  | none => .low

/-! # Sounding selection: `SoundingSelector.select_from_grid`
(`src/apps/api/src/domain/services/sounding_selection.py`, lines 47-137).
The grid is modelled with NaN validity (the `nodata_value = None` path of
the source, where `valid_mask = ~np.isnan(cell)`). -/

/-- A depth grid: a total assignment of a modelled double to each pixel
coordinate; only cells inside the stated shape are ever consulted. -/
abbrev GridO := ℕ → ℕ → Option ℚ

/-- The six-coefficient affine pixel-to-world transform
`Affine(a, b, c, d, e, f)`. -/
structure AffineT where
  a : ℚ
  b : ℚ
  c : ℚ
  d : ℚ
  e : ℚ
  f : ℚ
  deriving Repr, DecidableEq

/-- `affine * (col, row)`: the rasterio affine action on pixel coordinates. -/
def AffineT.apply (t : AffineT) (col row : ℚ) : ℚ × ℚ :=
  (t.a * col + t.b * row + t.c, t.d * col + t.e * row + t.f)

/-- The three selection modes of `SoundingSelector`. -/
inductive SelectionMode where
  | shoal
  | deep
  | representative
  deriving Repr, DecidableEq

/-- `SoundingPoint` value object. -/
structure SoundingPointE where
  x : ℚ
  y : ℚ
  depth : ℚ
  selectionType : SelectionMode
  cellId : ℕ × ℕ
  deriving Repr, DecidableEq

/-- `range(0, total, step)` for a positive step: the block start offsets of
the cell partition. -/
def blockStarts (total step : ℕ) : List ℕ :=
  (List.range ((total + step - 1) / step)).map (· * step)

/-- `cell_pixels_x = max(1, int(cell_size / pixel_size_x))` with
`pixel_size_x = abs(affine.a)`. -/
def cellPixelsX (cellSize : ℚ) (t : AffineT) : ℕ :=
  max 1 (Int.toNat ⌊cellSize / |t.a|⌋)

/-- `cell_pixels_y = max(1, int(cell_size / pixel_size_y))` with
`pixel_size_y = abs(affine.e)`. -/
def cellPixelsY (cellSize : ℚ) (t : AffineT) : ℕ :=
  max 1 (Int.toNat ⌊cellSize / |t.e|⌋)

/-- Row-major list of the values of the sub-grid
`depth_grid[row_start:row_end, col_start:col_end]`. -/
def cellVals (g : GridO) (rs re cs ce : ℕ) : List (Option ℚ) :=
  (List.range (re - rs)).flatMap fun r =>
    (List.range (ce - cs)).map fun c => g (rs + r) (cs + c)

/-- Row-major list of the absolute pixel coordinates of the same sub-grid. -/
def cellCoords (rs re cs ce : ℕ) : List (ℕ × ℕ) :=
  (List.range (re - rs)).flatMap fun r =>
    (List.range (ce - cs)).map fun c => (rs + r, cs + c)

/-- `valid_depths.flat[np.nanargmin(np.abs(valid_depths))]`: the first
element of smallest absolute value (numpy's argmin keeps the first
occurrence of the minimum). -/
def pickMinAbs : List ℚ → ℚ
  | [] => 0
  | h :: t => t.foldl (fun b v => if |v| < |b| then v else b) h

/-- `valid_depths.flat[np.nanargmax(np.abs(valid_depths))]`: the first
element of largest absolute value. -/
def pickMaxAbs : List ℚ → ℚ
  | [] => 0
  | h :: t => t.foldl (fun b v => if |b| < |v| then v else b) h

/-- `np.nanargmin(np.abs(cell - selected_depth))` converted to an absolute
pixel coordinate: the first valid pixel whose value is nearest the selected
depth (NaN distances are skipped). -/
def nanargminPos (g : GridO) (sel : ℚ) (coords : List (ℕ × ℕ)) : ℕ × ℕ :=
  let best := coords.foldl
    (fun (b : Option ((ℕ × ℕ) × ℚ)) c =>
      match g c.1 c.2 with
      | some v =>
          match b with
          | some (_, d) => if |v - sel| < d then some (c, |v - sel|) else b
          | none => some (c, |v - sel|)
      | none => b)
    none
  match best with
  | some (p, _) => p
  | none => (0, 0)

/-- Per-cell body of the `select_from_grid` loop: skip an all-invalid cell,
otherwise select the depth according to the mode, locate its pixel and
convert the pixel centre to world coordinates. -/
def selectCell (mode : SelectionMode) (g : GridO) (t : AffineT)
    (rs re cs ce bi bj : ℕ) : Option SoundingPointE :=
  let valid := (cellVals g rs re cs ce).filterMap id
  if valid.isEmpty then none
  else
    let depth :=
      match mode with
      | .shoal => pickMinAbs valid
      | .deep => pickMaxAbs valid
      | .representative => medianQ valid
    let pos := nanargminPos g depth (cellCoords rs re cs ce)
    let xy := t.apply ((pos.2 : ℚ) + 1/2) ((pos.1 : ℚ) + 1/2)
    some ⟨xy.1, xy.2, depth, mode, (bi, bj)⟩

/-- `SoundingSelector.select_from_grid` over a grid of shape `(m, n)`. -/
def selectFromGrid (mode : SelectionMode) (cellSize : ℚ) (g : GridO)
    (m n : ℕ) (t : AffineT) : List SoundingPointE :=
  let cpy := cellPixelsY cellSize t
  let cpx := cellPixelsX cellSize t
  (blockStarts m cpy).flatMap fun rs =>
    (blockStarts n cpx).filterMap fun cs =>
      selectCell mode g t rs (min (rs + cpy) m) cs (min (cs + cpx) n)
        (rs / cpy) (cs / cpx)

/-- The valid depths of the cell with block index `(bi, bj)`, exactly as the
loop body extracts them. -/
def cellValidDepths (g : GridO) (m n cpy cpx bi bj : ℕ) : List ℚ :=
  (cellVals g (bi * cpy) (min (bi * cpy + cpy) m)
    (bj * cpx) (min (bj * cpx + cpx) n)).filterMap id

/-! # Claim theorems: contour closure, confidence tiers, shoal selection -/

/-- The closed square ring used as the failing input for claim C4. -/
def squareRing : List Pt := [(0, 0), (1, 0), (1, 1), (0, 1), (0, 0)]

/-- A concrete 2-by-2 grid of valid depths with mixed signs. -/
def g6 : GridO := fun i j =>
  if i = 0 then (if j = 0 then some (-3) else if j = 1 then some 5 else none)
  else if i = 1 then (if j = 0 then some 2 else if j = 1 then some (-1) else none)
  else none

/-- A north-up unit-resolution affine transform `Affine(1, 0, 0, 0, -1, 0)`. -/
def t0 : AffineT := ⟨1, 0, 0, 0, -1, 0⟩

/-! # Feature extraction: `FeatureExtractor`
(`ml_pipeline.py`, lines 149-306).

`_compute_local_zscore`, `_compute_roughness` and `_compute_neighbor_stats`
convolve NaN-filled data and the validity indicator with a uniform
`window_size × window_size` kernel in `mode='constant'`; window sizes are
odd (defaults 5 and 3) and are modelled by their radius `r`
(`window_size = 2r + 1`).  `_compute_slope` and `_compute_curvature` apply
`ndimage.sobel` directly to the raw (NaN-carrying) data in its default
`'reflect'` mode; scipy's separable pass structure is modelled by the
equivalent full 3-by-3 kernel, whose zero entries still matter because
`0 * NaN = NaN`.  `_compute_laplacian` applies `ndimage.laplace` to
NaN-filled data. -/

/-- `np.nan_to_num(data, nan=0)` as a pure grid. -/
def dataFilled (g : GridO) : ℕ → ℕ → ℚ := fun i j => (g i j).getD 0

/-- `valid_mask.astype(float)`. -/
def validInd (g : GridO) : ℕ → ℕ → ℚ := fun i j => if (g i j).isSome then 1 else 0

/-- Constant-mode sampling (`mode='constant'`, `cval=0`): pixels outside the
shape read zero. -/
def sampleC (f : ℕ → ℕ → ℚ) (m n : ℕ) (i j : ℤ) : ℚ :=
  if 0 ≤ i ∧ i < (m : ℤ) ∧ 0 ≤ j ∧ j < (n : ℤ) then f i.toNat j.toNat else 0

/-- scipy's `'reflect'` boundary index: `(d c b a | a b c d | d c b a)`. -/
def reflZ (n : ℕ) (i : ℤ) : ℕ :=
  if i < 0 then (-1 - i).toNat
  else if i < (n : ℤ) then i.toNat
  else (2 * (n : ℤ) - 1 - i).toNat

/-- Reflect-mode sampling of a NaN-carrying grid. -/
def sampleRO (g : GridO) (m n : ℕ) (i j : ℤ) : Option ℚ :=
  g (reflZ m i) (reflZ n j)

/-- Reflect-mode sampling of a pure grid. -/
def sampleRQ (f : ℕ → ℕ → ℚ) (m n : ℕ) (i j : ℤ) : ℚ :=
  f (reflZ m i) (reflZ n j)

/-- Window offsets `-r .. r`. -/
def offsets (r : ℕ) : List ℤ := (List.range (2 * r + 1)).map fun k => (k : ℤ) - r

/-- `ndimage.convolve(f, ones((w, w)) / w², mode='constant')` at one pixel. -/
def convBox (f : ℕ → ℕ → ℚ) (m n r : ℕ) (i j : ℕ) : ℚ :=
  ((offsets r).map fun di =>
    ((offsets r).map fun dj =>
      sampleC f m n ((i : ℤ) + di) ((j : ℤ) + dj)).sum).sum
  / ((2 * r + 1 : ℕ) ^ 2 : ℚ)

/-- `local_count = np.maximum(convolve(valid_mask, kernel), 1e-10)`. -/
def localCount (g : GridO) (m n r i j : ℕ) : ℚ :=
  max (convBox (validInd g) m n r i j) tiny

/-- `local_mean = convolve(data_filled * valid_mask, kernel) / local_count`. -/
def localMean (g : GridO) (m n r i j : ℕ) : ℚ :=
  convBox (fun a b => dataFilled g a b * validInd g a b) m n r i j
    / localCount g m n r i j

/-- `local_var = convolve(data_filled² * valid_mask, kernel) / local_count
- local_mean²`. -/
def localVar (g : GridO) (m n r i j : ℕ) : ℚ :=
  convBox (fun a b => dataFilled g a b ^ 2 * validInd g a b) m n r i j
    / localCount g m n r i j - localMean g m n r i j ^ 2

/-- `local_std = np.maximum(sqrt(np.maximum(local_var, 0)), 1e-10)`. -/
def localStd (sq : ℚ → ℚ) (g : GridO) (m n r i j : ℕ) : ℚ :=
  max (sq (max (localVar g m n r i j) 0)) tiny

/-- `FeatureExtractor._compute_local_zscore`: `(data - local_mean) /
local_std` with NaN forced on invalid source cells (a NaN input value also
propagates through the quotient, so `Option.map` captures both). -/
def zScoreF (sq : ℚ → ℚ) (g : GridO) (m n r : ℕ) : GridO := fun i j =>
  (g i j).map fun v => (v - localMean g m n r i j) / localStd sq g m n r i j

/-- Full 3-by-3 kernel of `ndimage.sobel(·, axis=1)` (derivative along
columns, `[1,2,1]` smoothing along rows), as `(di, dj, weight)` triples. -/
def sobelAx1 : List (ℤ × ℤ × ℚ) :=
  [(-1, -1, -1), (-1, 0, 0), (-1, 1, 1),
   (0, -1, -2), (0, 0, 0), (0, 1, 2),
   (1, -1, -1), (1, 0, 0), (1, 1, 1)]

/-- Full 3-by-3 kernel of `ndimage.sobel(·, axis=0)` (derivative along
rows, `[1,2,1]` smoothing along columns). -/
def sobelAx0 : List (ℤ × ℤ × ℚ) :=
  [(-1, -1, -1), (-1, 0, -2), (-1, 1, -1),
   (0, -1, 0), (0, 0, 0), (0, 1, 0),
   (1, -1, 1), (1, 0, 2), (1, 1, 1)]

/-- Reflect-mode correlation of a NaN-carrying grid with a small kernel;
NaN poisons every window it appears in, including through zero weights,
exactly as in IEEE arithmetic. -/
def convKernelO (g : GridO) (m n : ℕ) (ker : List (ℤ × ℤ × ℚ)) (i j : ℕ) :
    Option ℚ :=
  ker.foldl
    (fun acc w =>
      rAdd acc (rMul (some w.2.2) (sampleRO g m n ((i : ℤ) + w.1) ((j : ℤ) + w.2.1))))
    (some 0)

/-- `FeatureExtractor._compute_slope`: Sobel gradients of the raw data,
`slope = sqrt(dx² + dy²)`, then NaN forced on invalid source cells. -/
def slopeF (sq : ℚ → ℚ) (g : GridO) (m n : ℕ) : GridO := fun i j =>
  if (g i j).isSome then
    (rAdd
      (rMul (convKernelO g m n sobelAx1 i j) (convKernelO g m n sobelAx1 i j))
      (rMul (convKernelO g m n sobelAx0 i j) (convKernelO g m n sobelAx0 i j))).map sq
  else none

/-- `FeatureExtractor._compute_curvature`: twice-iterated Sobel per axis,
`curvature = (|d2x| + |d2y|) / 2`, then NaN forced on invalid cells. -/
def curvatureF (g : GridO) (m n : ℕ) : GridO := fun i j =>
  if (g i j).isSome then
    (rAdd
      (rAbs (convKernelO (fun a b => convKernelO g m n sobelAx1 a b) m n sobelAx1 i j))
      (rAbs (convKernelO (fun a b => convKernelO g m n sobelAx0 a b) m n sobelAx0 i j))).map
      (fun v => v / 2)
  else none

/-- `FeatureExtractor._compute_roughness`: `sqrt(np.maximum(local_var, 0))`
over its own window, NaN forced on invalid cells. -/
def roughnessF (sq : ℚ → ℚ) (g : GridO) (m n r : ℕ) : GridO := fun i j =>
  if (g i j).isSome then some (sq (max (localVar g m n r i j) 0)) else none

/-- `ndimage.laplace` of the NaN-filled data at one pixel. -/
def laplaceQ (f : ℕ → ℕ → ℚ) (m n : ℕ) (i j : ℕ) : ℚ :=
  sampleRQ f m n ((i : ℤ) - 1) j + sampleRQ f m n ((i : ℤ) + 1) j +
    sampleRQ f m n i ((j : ℤ) - 1) + sampleRQ f m n i ((j : ℤ) + 1) -
    4 * f i j

/-- `FeatureExtractor._compute_laplacian`: Laplace response of the
NaN-filled data, NaN forced on invalid cells. -/
def laplacianF (g : GridO) (m n : ℕ) : GridO := fun i j =>
  if (g i j).isSome then some (laplaceQ (dataFilled g) m n i j) else none

/-- `_compute_neighbor_stats` (mean part): `local_mean`, NaN forced on
invalid cells. -/
def neighborMeanF (g : GridO) (m n r : ℕ) : GridO := fun i j =>
  if (g i j).isSome then some (localMean g m n r i j) else none

/-- `_compute_neighbor_stats` (std part): `sqrt(np.maximum(local_var, 0))`,
NaN forced on invalid cells. -/
def neighborStdF (sq : ℚ → ℚ) (g : GridO) (m n r : ℕ) : GridO := fun i j =>
  if (g i j).isSome then some (sq (max (localVar g m n r i j) 0)) else none

/-- The dictionary returned by `FeatureExtractor.extract_features`. -/
structure FeaturesE where
  zScore : GridO
  slope : GridO
  curvature : GridO
  roughness : GridO
  laplacian : GridO
  neighborMean : GridO
  neighborStd : GridO

/-- `FeatureExtractor.extract_features` with neighbourhood radius `rNb`
(window default 5, radius 2) and roughness radius `rRg` (window default 3,
radius 1). -/
def extractFeatures (sq : ℚ → ℚ) (rNb rRg : ℕ) (g : GridO) (m n : ℕ) :
    FeaturesE where
  zScore := zScoreF sq g m n rNb
  slope := slopeF sq g m n
  curvature := curvatureF g m n
  roughness := roughnessF sq g m n rRg
  laplacian := laplacianF g m n
  neighborMean := neighborMeanF g m n rNb
  neighborStd := neighborStdF sq g m n rNb

/-- A 3-by-3 grid whose only invalid cell is the corner `(0, 0)`. -/
def gNaN : GridO := fun i j =>
  if i = 0 ∧ j = 0 then none
  else if i < 3 ∧ j < 3 then some 10 else none

/-! # Anomaly detection: `AnomalyDetector` (`ml_pipeline.py`, lines 309-461).

The scikit-learn `IsolationForest` is external to the repository; its
`decision_function` is modelled as an opaque row-indexed function of the
feature matrix.  With a fixed random seed the model is deterministic, so a
fixed oracle models a fixed seed.  Everything after the model call — the
sign flip, min–max normalisation, and scatter into the grid — is embedded
from the source. -/

/-- A detector output surface. -/
abbrev Surf := ℕ → ℕ → Option ℚ

/-- The two implemented detectors (the keys of `detector_results`). -/
inductive DetectorName where
  | isolationForest
  | zscore
  deriving Repr, DecidableEq

/-- Configuration of `_run_zscore_detector` (`use_mad`, `mad_threshold`,
`threshold`, with the repository defaults). -/
structure ZscoreCfg where
  useMad : Bool := true
  madThreshold : ℚ := 7/2
  threshold : ℚ := 3
  deriving Repr, DecidableEq

/-- Combination weights for the detectors actually present in
`detector_results` (`weights.get(detector, 0.1)` made total; defaults
`isolation_forest 0.5`, `zscore 0.3`). -/
structure WeightsCfg where
  isolationForest : ℚ := 1/2
  zscore : ℚ := 3/10
  deriving Repr, DecidableEq

/-- Weight lookup by detector name. -/
def WeightsCfg.get (w : WeightsCfg) : DetectorName → ℚ
  | .isolationForest => w.isolationForest
  | .zscore => w.zscore

/-- Configuration of `AnomalyDetector.detect` with repository defaults
(`anomaly_threshold` default 0.6). -/
structure DetectorCfg where
  isoEnabled : Bool := true
  zscoreEnabled : Bool := true
  zscoreCfg : ZscoreCfg := {}
  weights : WeightsCfg := {}
  anomalyThreshold : ℚ := 3/5

/-- All pixel coordinates of an `(m, n)` grid in raster (row-major) order. -/
def allCells (m n : ℕ) : List (ℕ × ℕ) :=
  (List.range m).flatMap fun i => (List.range n).map fun j => (i, j)

/-- `_run_zscore_detector`: modified z-score via median/MAD over the valid
z-score cells (or plain `|z| / threshold` when `use_mad` is off), divided by
the threshold, clamped to 1, and NaN-sanitised to 0. -/
def runZscoreDetector (cfg : ZscoreCfg) (m n : ℕ) (z : Surf) : Surf :=
  fun i j =>
    if cfg.useMad then
      let valid := (allCells m n).filterMap fun c => z c.1 c.2
      if valid.isEmpty then some 0
      else
        let med := medianQ valid
        let mad := madQ valid
        let s :=
          if mad < tiny then rAbs (rSub (z i j) (some med))
          else rDiv (rAbs (rSub (z i j) (some med))) (some mad)
        some (rNanToNum (rMinQ (rDiv s (some cfg.madThreshold)) 1))
    else
      some (rNanToNum (rMinQ (rDiv (rAbs (z i j)) (some cfg.threshold)) 1))

/-- A feature matrix: one row of five sanitised feature values per valid
cell. -/
abbrev FeatMatrix := List (List ℚ)

/-- The opaque `IsolationForest(...).fit(X).decision_function(X)` oracle:
the decision value of row `k` of the matrix.  A fixed oracle corresponds to
a fixed `random_state` and estimator count. -/
abbrev IsoModel := FeatMatrix → ℕ → ℚ

/-- The valid cells of the grid in raster order (`valid_mask`). -/
def validCellsOf (g : GridO) (m n : ℕ) : List (ℕ × ℕ) :=
  (allCells m n).filter fun c => (g c.1 c.2).isSome

/-- `X = np.nan_to_num(np.column_stack(feature_list), nan=0, ...)`: the
five feature surfaces `z_score, slope, curvature, roughness, laplacian`
sampled at the valid cells.  (The `if not feature_list` guard of the source
is vacuous here because `extract_features` always supplies all five
names.) -/
def featureMatrix (g : GridO) (f : FeaturesE) (m n : ℕ) : FeatMatrix :=
  (validCellsOf g m n).map fun c =>
    [rNanToNum (f.zScore c.1 c.2), rNanToNum (f.slope c.1 c.2),
     rNanToNum (f.curvature c.1 c.2), rNanToNum (f.roughness c.1 c.2),
     rNanToNum (f.laplacian c.1 c.2)]

/-- `_run_isolation_forest`: fit and score on the valid-cell matrix, flip
the sign, min–max normalise over the batch, scatter back into a zero grid.
On a grid with no valid cell the matrix has zero rows and `model.fit` /
`scores.min()` raise `ValueError`; that error case is `none`. -/
def runIsolationForest (model : IsoModel) (g : GridO) (f : FeaturesE)
    (m n : ℕ) : Option Surf :=
  let vc := validCellsOf g m n
  if vc.isEmpty then none
  else
    let X := featureMatrix g f m n
    let raw := (List.range vc.length).map fun k => -(model X k)
    let nrm := raw.map fun s => (s - listMin raw) / (listMax raw - listMin raw + tiny)
    some fun i j => some (((vc.zip nrm).lookup (i, j)).getD 0)

/-- `_combine_scores`: weighted sum of the present detector surfaces,
normalised by the total weight only when that total is positive. -/
def combineScores (weights : DetectorName → ℚ)
    (results : List (DetectorName × Surf)) : Surf := fun i j =>
  let s := results.foldl
    (fun acc dr => rAdd acc (rMul (some (weights dr.1)) (dr.2 i j))) (some 0)
  let total := results.foldl (fun acc dr => acc + weights dr.1) 0
  if 0 < total then rDiv s (some total) else s

/-- The value returned by `AnomalyDetector.detect`. -/
structure DetectionResultE where
  scoreGrid : Surf
  anomalyMask : ℕ → ℕ → Bool
  results : List (DetectorName × Surf)

/-- `AnomalyDetector.detect`: run the enabled detectors in order, combine
their surfaces, and derive the binary mask (`final_score > threshold`, with
invalid source cells forced false). -/
def detect (cfg : DetectorCfg) (model : IsoModel) (g : GridO) (f : FeaturesE)
    (m n : ℕ) : Option DetectionResultE :=
  (if cfg.isoEnabled then
    (runIsolationForest model g f m n).map
      fun s => [(DetectorName.isolationForest, s)]
  else some []).map fun rIso =>
    let rs := rIso ++
      (if cfg.zscoreEnabled then
        [(DetectorName.zscore, runZscoreDetector cfg.zscoreCfg m n f.zScore)]
      else [])
    let final := combineScores cfg.weights.get rs
    ⟨final,
      fun i j => rGtB (final i j) cfg.anomalyThreshold && (g i j).isSome, rs⟩

/-! # Raster statistics: `RasterProcessor.compute_statistics`
(`ml_pipeline.py`, lines 121-146). -/

/-- The statistics record; `None` fields of the undefined record are
`none`. -/
structure StatsE where
  zMin : Option ℚ
  zMax : Option ℚ
  zMean : Option ℚ
  zStd : Option ℚ
  zMedian : Option ℚ
  validCount : ℕ
  nodataCount : ℕ
  totalCount : ℕ
  deriving Repr, DecidableEq

/-- `RasterProcessor.compute_statistics`: the undefined record on an
all-invalid grid, otherwise statistics over the valid subset. -/
def computeStatistics (sq : ℚ → ℚ) (g : GridO) (m n : ℕ) : StatsE :=
  let valid := (allCells m n).filterMap fun c => g c.1 c.2
  let nodata := ((allCells m n).filter fun c => !(g c.1 c.2).isSome).length
  if valid.isEmpty then
    ⟨none, none, none, none, none, 0, nodata, m * n⟩
  else
    ⟨some (listMin valid), some (listMax valid), some (meanQ valid),
     some (stdQ sq valid), some (medianQ valid), valid.length, nodata, m * n⟩

/-! # Polygonization: `AnomalyPolygonizer.polygonize`
(`ml_pipeline.py`, lines 464-747).

Connected components model `scipy.ndimage.label` with its default cross
(4-connected) structuring element; components are discovered in raster-scan
order of their first pixel, matching scipy's label order, and each is
represented by its duplicate-free pixel list.  The geometry chain
(`rasterio.features.shapes`, reprojection, `shapely` simplification and
centroid) is an external, deterministic function of the component's pixel
set and is modelled by an opaque oracle.  `uuid4()` draws and
`datetime.utcnow()` are modelled by explicit entropy/clock streams indexed
by creation order. -/

/-- A pixel coordinate. -/
abbrev Cell := ℕ × ℕ

/-- Orthogonal neighbours (the cross structuring element of
`ndimage.label`). -/
def nbrs (c : Cell) : List Cell :=
  [(c.1 + 1, c.2), (c.1, c.2 + 1)] ++
  (if 0 < c.1 then [(c.1 - 1, c.2)] else []) ++
  (if 0 < c.2 then [(c.1, c.2 - 1)] else [])

/-- Bounds test for a pixel coordinate. -/
def inBounds (m n : ℕ) (c : Cell) : Bool := decide (c.1 < m) && decide (c.2 < n)

/-- One breadth expansion of a set of pixels by mask-true in-bounds
neighbours (kept duplicate-free). -/
def expandComp (mask : Cell → Bool) (m n : ℕ) (s : List Cell) : List Cell :=
  s ++ ((s.flatMap nbrs).filter
    (fun d => inBounds m n d && mask d && !(s.contains d))).dedup

/-- The connected component of `c` in the mask; `m * n` expansions reach a
fixpoint on an `(m, n)` grid. -/
def compOf (mask : Cell → Bool) (m n : ℕ) (c : Cell) : List Cell :=
  (expandComp mask m n)^[m * n] [c]

/-- `ndimage.label` + `find_objects`: the connected components of the mask
in raster-scan order of their first pixel. -/
def componentsOf (mask : Cell → Bool) (m n : ℕ) : List (List Cell) :=
  ((allCells m n).foldl
    (fun acc c =>
      if mask c = true ∧ c ∉ acc.1 then
        (acc.1 ++ compOf mask m n c, acc.2 ++ [compOf mask m n c])
      else acc)
    ([], [])).2

/-- The 3-by-3 structuring element `np.ones((3, 3))` as offsets. -/
def offs8 : List (ℤ × ℤ) :=
  [(-1, -1), (-1, 0), (-1, 1), (0, -1), (0, 0), (0, 1), (1, -1), (1, 0), (1, 1)]

/-- Mask sampling at signed coordinates; outside the shape reads false
(`binary_erosion`/`binary_dilation` default `border_value=0`). -/
def maskAtZ (mask : Cell → Bool) (m n : ℕ) (i j : ℤ) : Bool :=
  if 0 ≤ i ∧ i < (m : ℤ) ∧ 0 ≤ j ∧ j < (n : ℤ) then mask (i.toNat, j.toNat)
  else false

/-- Binary erosion by the full 3-by-3 structure. -/
def erodeM (mask : Cell → Bool) (m n : ℕ) : Cell → Bool := fun c =>
  offs8.all fun o => maskAtZ mask m n ((c.1 : ℤ) + o.1) ((c.2 : ℤ) + o.2)

/-- Binary dilation by the full 3-by-3 structure. -/
def dilateM (mask : Cell → Bool) (m n : ℕ) : Cell → Bool := fun c =>
  offs8.any fun o => maskAtZ mask m n ((c.1 : ℤ) + o.1) ((c.2 : ℤ) + o.2)

/-- `ndimage.binary_opening(mask, structure=np.ones((3, 3)))`: erosion then
dilation. -/
def openingM (mask : Cell → Bool) (m n : ℕ) : Cell → Bool :=
  dilateM (erodeM mask m n) m n

/-- The anomaly-type enumeration from `domain/entities.py`. -/
inductive AnomalyTypeE where
  | spike
  | hole
  | seam
  | noiseBand
  | discontinuity
  | densityGap
  | unknown
  deriving Repr, DecidableEq

/-- The output of the opaque geometry chain for one component: polygon ring
and centroid. -/
structure GeomE where
  cx : ℚ
  cy : ℚ
  ring : List (ℚ × ℚ)
  deriving Repr, DecidableEq

/-- Opaque model of `rasterio.features.shapes` + reprojection +
`shapely` simplify/centroid: a deterministic function of the component's
pixel list. -/
abbrev GeomOracle := List Cell → GeomE

/-- The structured explanation record attached to each anomaly. -/
structure ExplanationE where
  primaryReason : String
  featureScores : List (DetectorName × Option ℚ)
  detectorFlags : List DetectorName
  pixelCount : ℕ
  deriving Repr, DecidableEq

/-- The `Anomaly` entity as built by `polygonize` (the constant
`review_decision = PENDING` is omitted; `id`/`run_id` are the two `uuid4()`
draws and `createdAt` the `utcnow()` reading, fed from explicit streams). -/
structure AnomalyE where
  id : ℕ
  runId : ℕ
  centroidX : ℚ
  centroidY : ℚ
  geometry : GeomE
  areaSqMeters : ℚ
  anomalyType : AnomalyTypeE
  anomalyProbability : Option ℚ
  confidence : ConfidenceLevelE
  qcPriority : Option ℚ
  explanation : ExplanationE
  localDepthMean : Option ℚ
  localDepthStd : Option ℚ
  neighborCount : ℕ
  createdAt : ℕ
  deriving Repr, DecidableEq

/-- Polygonizer configuration with repository defaults:
`anomaly_threshold` 0.6, `min_area_pixels` fallback 25, confidence
thresholds 0.8/0.5, priority weights 0.5/0.3/0.2, and the metadata pixel
resolution. -/
structure PolyCfg where
  anomalyThreshold : ℚ := 3/5
  minArea : ℕ := 25
  confHigh : ℚ := 4/5
  confMedium : ℚ := 1/2
  scoreWeight : ℚ := 1/2
  depthVarianceWeight : ℚ := 3/10
  clusterWeight : ℚ := 1/5
  resX : ℚ := 1
  resY : ℚ := 1

/-- `AnomalyPolygonizer._calculate_priority`: probability, depth-variation
and area components (a NaN mean probability propagates into the
priority). -/
def calculatePriority (sq : ℚ → ℚ) (cfg : PolyCfg) (meanProb : Option ℚ)
    (area : ℚ) (localDepths : List ℚ) : Option ℚ :=
  let scoreP := rMul meanProb (some cfg.scoreWeight)
  let depthP : ℚ :=
    if 1 < localDepths.length then
      min (stdQ sq localDepths /
        (meanQ (localDepths.map fun x => |x|) + tiny)) 1 * cfg.depthVarianceWeight
    else 0
  let areaP := min (area / 100) 1 * cfg.clusterWeight
  rAdd (rAdd scoreP (some depthP)) (some areaP)

/-- `AnomalyPolygonizer._infer_anomaly_type`: global-median ratio
heuristic, with every comparison against a NaN median false. -/
def inferAnomalyType (detScores : List (DetectorName × Option ℚ))
    (localDepths : List ℚ) (g : GridO) (m n : ℕ) : AnomalyTypeE :=
  if localDepths.isEmpty then .unknown
  else
    let lm := meanQ localDepths
    let isoHigh :=
      rGtB ((detScores.lookup DetectorName.isolationForest).getD (some 0)) (4/5)
    match nanmedianL ((allCells m n).map fun c => g c.1 c.2) with
    | some gm =>
        if gm * (3/2) < lm then .spike
        else if lm < gm * (3/5) then .hole
        else if isoHigh then .noiseBand
        else .unknown
    | none => if isoHigh then .noiseBand else .unknown

/-- `b < v` on possibly-NaN scores (false whenever either is NaN). -/
def ovLt : Option ℚ → Option ℚ → Bool
  | some a, some b => decide (a < b)
  | _, _ => false

/-- `max(detector_scores.items(), key=value)`: the first entry of maximal
score (Python's `max` keeps the first maximal element). -/
def maxScorePair : List (DetectorName × Option ℚ) →
    Option (DetectorName × Option ℚ)
  | [] => none
  | h :: t => some (t.foldl (fun b v => if ovLt b.2 v.2 then v else b) h)

/-- `AnomalyPolygonizer._get_primary_reason`. -/
def getPrimaryReason (detScores : List (DetectorName × Option ℚ))
    (triggered : List DetectorName) : String :=
  if triggered.isEmpty then "Score exceeded threshold"
  else
    match maxScorePair detScores with
    | some (DetectorName.isolationForest, _) =>
        "Unusual feature combination detected by Isolation Forest"
    | some (DetectorName.zscore, _) =>
        "Depth significantly different from neighbors"
    | none => "Score exceeded threshold"

/-- The loop body of `polygonize` for one surviving component: local
statistics, per-detector means and trigger flags, confidence, priority,
type inference, explanation, and the freshly drawn identifiers.  `k` is the
number of anomalies created before this one. -/
def mkAnomaly (sq : ℚ → ℚ) (cfg : PolyCfg) (geom : GeomOracle)
    (scoreGrid : Surf) (results : List (DetectorName × Surf)) (g : GridO)
    (m n : ℕ) (entropy clock : ℕ → ℕ) (k : ℕ) (comp : List Cell) :
    AnomalyE :=
  let pixelCount := comp.length
  let area : ℚ := (pixelCount : ℚ) * |cfg.resX * cfg.resY|
  let meanProb := nanmeanL (comp.map fun c => scoreGrid c.1 c.2)
  let localDepths := (comp.map fun c => g c.1 c.2).filterMap id
  let detScores := results.map
    fun dr => (dr.1, nanmeanL (comp.map fun c => dr.2 c.1 c.2))
  let triggered :=
    (detScores.filter fun ds => rGtB ds.2 cfg.anomalyThreshold).map Prod.fst
  let gd := geom comp
  { id := entropy (2 * k)
    runId := entropy (2 * k + 1)
    centroidX := gd.cx
    centroidY := gd.cy
    geometry := gd
    areaSqMeters := area
    anomalyType := inferAnomalyType detScores localDepths g m n
    anomalyProbability := meanProb
    confidence := confidenceLevelO cfg.confHigh cfg.confMedium meanProb
    qcPriority := calculatePriority sq cfg meanProb area localDepths
    explanation := ⟨getPrimaryReason detScores triggered, detScores,
      triggered, pixelCount⟩
    localDepthMean := if localDepths.isEmpty then none
      else some (meanQ localDepths)
    localDepthStd := if localDepths.isEmpty then none
      else some (stdQ sq localDepths)
    neighborCount := pixelCount
    createdAt := clock k }

/-- The component loop of `polygonize`, with the hard safety limits
(`max_scan_count = 2000` components scanned, `max_anomalies = 2000`
collected) and the minimum-pixel-area skip. -/
def polyLoop (sq : ℚ → ℚ) (cfg : PolyCfg) (geom : GeomOracle)
    (scoreGrid : Surf) (results : List (DetectorName × Surf)) (g : GridO)
    (m n : ℕ) (entropy clock : ℕ → ℕ) :
    List (List Cell) → ℕ → ℕ → List AnomalyE
  | [], _, _ => []
  | comp :: rest, labelId, numAnoms =>
    if 2000 < labelId then []
    else if 2000 ≤ numAnoms then []
    else if comp.length < cfg.minArea then
      polyLoop sq cfg geom scoreGrid results g m n entropy clock rest
        (labelId + 1) numAnoms
    else
      mkAnomaly sq cfg geom scoreGrid results g m n entropy clock numAnoms
          comp ::
        polyLoop sq cfg geom scoreGrid results g m n entropy clock rest
          (labelId + 1) (numAnoms + 1)

/-- `b.qc_priority < a.qc_priority` on possibly-NaN priorities. -/
def priLt (a b : Option ℚ) : Bool :=
  match a, b with
  | some x, some y => decide (x < y)
  | _, _ => false

/-- Stable descending insertion by QC priority: a later anomaly passes an
earlier one only when its priority is strictly greater, which is the
stable-sort semantics of `list.sort(key=..., reverse=True)`. -/
def insDesc (a : AnomalyE) : List AnomalyE → List AnomalyE
  | [] => [a]
  | b :: t =>
      if priLt b.qcPriority a.qcPriority then a :: b :: t else b :: insDesc a t

/-- `anomalies.sort(key=lambda a: a.qc_priority, reverse=True)`: the stable
descending sort, realised as left-to-right stable insertion. -/
def sortByPriorityDesc (l : List AnomalyE) : List AnomalyE :=
  l.foldl (fun acc a => insDesc a acc) []

/-- `AnomalyPolygonizer.polygonize`: threshold the score grid into a mask
(NaN scores false), apply one binary opening when the minimum area exceeds
one pixel, label components, run the component loop, and sort by descending
QC priority.  (An empty component list makes the loop return `[]`, which is
the `num_features == 0` early return.) -/
def polygonize (sq : ℚ → ℚ) (cfg : PolyCfg) (geom : GeomOracle)
    (scoreGrid : Surf) (results : List (DetectorName × Surf)) (g : GridO)
    (m n : ℕ) (entropy clock : ℕ → ℕ) : List AnomalyE :=
  let mask : Cell → Bool := fun c => rGtB (scoreGrid c.1 c.2) cfg.anomalyThreshold
  let mask2 := if 1 < cfg.minArea then openingM mask m n else mask
  sortByPriorityDesc
    (polyLoop sq cfg geom scoreGrid results g m n entropy clock
      (componentsOf mask2 m n) 1 0)

/-- The analysis pipeline of the claims: feature extraction, detection, and
polygonization (`MLPipeline.run_analysis` steps 2, 3 and 6; loading and
file outputs are external I/O).  The detector and polygonizer views are
read from the same `ProcessingConfig`, so callers pass matching
thresholds. -/
def runAnalysis (sq : ℚ → ℚ) (rNb rRg : ℕ) (dcfg : DetectorCfg)
    (pcfg : PolyCfg) (model : IsoModel) (geom : GeomOracle)
    (entropy clock : ℕ → ℕ) (g : GridO) (m n : ℕ) :
    Option (List AnomalyE) :=
  (detect dcfg model g (extractFeatures sq rNb rRg g m n) m n).map fun r =>
    polygonize sq pcfg geom r.scoreGrid r.results g m n entropy clock

/-- The run-independent projection of an anomaly: every field except the
freshly drawn `id`/`run_id` and the creation timestamp.  These are exactly
the fields the spec's data model lists for an `Anomaly`. -/
structure AnomalyCoreE where
  centroidX : ℚ
  centroidY : ℚ
  geometry : GeomE
  areaSqMeters : ℚ
  anomalyType : AnomalyTypeE
  anomalyProbability : Option ℚ
  confidence : ConfidenceLevelE
  qcPriority : Option ℚ
  explanation : ExplanationE
  localDepthMean : Option ℚ
  localDepthStd : Option ℚ
  neighborCount : ℕ
  deriving Repr, DecidableEq

/-- Forget the per-run identifiers and timestamp. -/
def AnomalyE.strip (a : AnomalyE) : AnomalyCoreE :=
  ⟨a.centroidX, a.centroidY, a.geometry, a.areaSqMeters, a.anomalyType,
    a.anomalyProbability, a.confidence, a.qcPriority, a.explanation,
    a.localDepthMean, a.localDepthStd, a.neighborCount⟩

/-! ## Concrete runs

A 1-by-3 depth grid with one shallow spike, analysed with the isolation
forest disabled (a fixed configuration); every following value was derived
by hand from the embedded definitions: the z-scores are `[-2, 3, -2]`, the
detector scores `[0, 1, 0]`, and the pipeline emits exactly one anomaly
over the spike cell. -/

/-- A concrete model oracle (the detector is disabled in these runs). -/
def isoZero : IsoModel := fun _ _ => 0

/-- A concrete geometry oracle. -/
def geomZero : GeomOracle := fun _ => ⟨0, 0, []⟩

/-- An entropy stream that always draws 0. -/
def eZero : ℕ → ℕ := fun _ => 0

/-- An entropy stream that always draws 1. -/
def eOne : ℕ → ℕ := fun _ => 1

/-- A clock stuck at 0. -/
def cZero : ℕ → ℕ := fun _ => 0

/-- The spike grid: depths `10, 11, 10` in one row. -/
def gX : GridO := fun i j =>
  if i = 0 ∧ j < 3 then (if j = 1 then some 11 else some 10) else none

/-- Detector configuration with the isolation forest disabled and all other
repository defaults. -/
def dcfgX : DetectorCfg := { isoEnabled := false }

/-- Polygonizer configuration with minimum area 1 (no opening) and all
other repository defaults. -/
def pcfgX : PolyCfg := { minArea := 1 }

/-- Detector configuration with a negative configured z-score weight. -/
def cfgNeg : DetectorCfg :=
  { isoEnabled := false, weights := { zscore := -3/10 } }

/-- An all-invalid (entirely nodata) grid. -/
def gAll : GridO := fun _ _ => none

/-! # Theorems -/

/-! # Supporting lemmas -/

/-- The first-minimum fold of `pickMinAbs` returns its accumulator or a list
element. -/
theorem foldMinAbs_mem (l : List ℚ) (acc : ℚ) :
    l.foldl (fun b v => if |v| < |b| then v else b) acc = acc ∨
      l.foldl (fun b v => if |v| < |b| then v else b) acc ∈ l := by
  induction l generalizing acc with
  | nil => exact Or.inl rfl
  | cons h t ih =>
    simp only [List.foldl_cons]
    rcases ih (if |h| < |acc| then h else acc) with hm | hm
    · rw [hm]
      split_ifs with hc
      · exact Or.inr (List.mem_cons_self h t)
      · exact Or.inl rfl
    · exact Or.inr (List.mem_cons_of_mem h hm)

/-- The first-minimum fold is bounded by the accumulator and by every list
element in absolute value. -/
theorem foldMinAbs_le (l : List ℚ) (acc : ℚ) :
    |l.foldl (fun b v => if |v| < |b| then v else b) acc| ≤ |acc| ∧
      ∀ x ∈ l, |l.foldl (fun b v => if |v| < |b| then v else b) acc| ≤ |x| := by
  induction l generalizing acc with
  | nil => exact ⟨le_refl _, by simp⟩
  | cons h t ih =>
    simp only [List.foldl_cons]
    obtain ⟨h1, h2⟩ := ih (if |h| < |acc| then h else acc)
    have hacc : |t.foldl (fun b v => if |v| < |b| then v else b)
        (if |h| < |acc| then h else acc)| ≤ |if |h| < |acc| then h else acc| := h1
    constructor
    · refine le_trans hacc ?_
      split_ifs with hc
      · exact le_of_lt hc
      · exact le_refl _
    · intro x hx
      rcases List.mem_cons.mp hx with rfl | hxt
      · refine le_trans hacc ?_
        split_ifs with hc
        · exact le_refl _
        · exact not_lt.mp hc
      · exact h2 x hxt

/-- The shoal pick is one of the valid depths (so its sign is preserved). -/
theorem pickMinAbs_mem (l : List ℚ) (hl : l ≠ []) : pickMinAbs l ∈ l := by
  cases l with
  | nil => exact absurd rfl hl
  | cons h t =>
    rcases foldMinAbs_mem t h with hm | hm
    · rw [pickMinAbs, hm]; exact List.mem_cons_self h t
    · exact List.mem_cons_of_mem h hm

/-- The shoal pick minimises absolute value over the valid depths. -/
theorem pickMinAbs_min (l : List ℚ) : ∀ x ∈ l, |pickMinAbs l| ≤ |x| := by
  cases l with
  | nil => simp
  | cons h t =>
    intro x hx
    rcases List.mem_cons.mp hx with rfl | hxt
    · exact (foldMinAbs_le t x).1
    · exact (foldMinAbs_le t h).2 x hxt

/-- Block starts enumerate every multiple of the step below the total. -/
theorem mem_blockStarts (total step k : ℕ) (hstep : 0 < step)
    (hk : k * step < total) : k * step ∈ blockStarts total step := by
  unfold blockStarts
  refine List.mem_map.mpr ⟨k, List.mem_range.mpr ?_, rfl⟩
  have h1 : k + 1 ≤ (total + step - 1) / step ↔ (k + 1) * step ≤ total + step - 1 :=
    Nat.le_div_iff_mul_le hstep
  have h2 : (k + 1) * step = k * step + step := Nat.succ_mul k step
  omega

/-- Claim C4 (code bug). The claim says `_chaikin_smooth` keeps a closed
path closed for every iteration count N ≥ 1.  On the closed unit-square
ring, one iteration returns a path whose first vertex is `(1/4, 0)` and
whose last vertex is `(0, 1/4)`: the ring is opened, and it is not even
approximately closed in the `np.allclose` sense that the next iteration and
`generate`'s closedness flag rely on. -/
theorem C4_chaikin_opens_closed_ring :
    squareRing.head? = squareRing.getLast? ∧
    (chaikinSmooth squareRing 1).head? = some (1/4, 0) ∧
    (chaikinSmooth squareRing 1).getLast? = some (0, 1/4) ∧
    (chaikinSmooth squareRing 1).head? ≠ (chaikinSmooth squareRing 1).getLast? ∧
    allcloseP (1/4, 0) (0, 1/4) = false := by
  have hs : chaikinSmooth squareRing 1 = chaikinStep squareRing :=
    Function.iterate_one chaikinStep ▸ rfl
  rw [hs]
  norm_num [squareRing, chaikinStep, chaikinPairs, allcloseP, List.getLast?]
  intro h
  rw [show |(1:ℚ)/4| = 1/4 from abs_of_nonneg (by norm_num)] at h
  norm_num at h

/-- Claim C5 (confirmed). With fixed thresholds, the confidence tier follows
the deterministic chain: probability at least the high threshold gives HIGH,
otherwise at least the medium threshold gives MEDIUM, otherwise LOW; and the
tier is monotone in the probability. -/
theorem C5_confidence_tier_rule (hi med p q : ℚ) (hpq : p ≤ q) :
    (hi ≤ p → confidenceLevel hi med p = .high) ∧
    (p < hi → med ≤ p → confidenceLevel hi med p = .medium) ∧
    (p < hi → p < med → confidenceLevel hi med p = .low) ∧
    (confidenceLevel hi med p).rank ≤ (confidenceLevel hi med q).rank := by
  refine ⟨fun h => ?_, fun h1 h2 => ?_, fun h1 h2 => ?_, ?_⟩
  · simp [confidenceLevel, h]
  · simp [confidenceLevel, not_le.mpr h1, h2]
  · simp [confidenceLevel, not_le.mpr h1, not_le.mpr h2]
  · unfold confidenceLevel
    split_ifs <;> first | decide | (exfalso; linarith)

/-- Witness for C5 at the default thresholds (high `0.8`, medium `0.5`):
probability `0.6` is assigned MEDIUM, and raising it to `0.9` cannot lower
the tier. -/
theorem C5_confidence_tier_rule_witness :
    confidenceLevel (4/5) (1/2) (3/5) = .medium ∧
    (confidenceLevel (4/5) (1/2) (3/5)).rank ≤
      (confidenceLevel (4/5) (1/2) (9/10)).rank := by
  constructor
  · exact (C5_confidence_tier_rule (4/5) (1/2) (3/5) (9/10) (by norm_num)).2.1
      (by norm_num) (by norm_num)
  · exact (C5_confidence_tier_rule (4/5) (1/2) (3/5) (9/10) (by norm_num)).2.2.2

/-- Claim C6 (confirmed). Every grid cell processed in shoal mode that holds
at least one valid depth emits a sounding whose depth is one of the cell's
valid depths (sign preserved) and whose absolute value is the minimum
absolute value among them. -/
theorem C6_shoal_selects_min_abs_depth (g : GridO) (m n : ℕ) (t : AffineT)
    (cellSize : ℚ) (bi bj : ℕ)
    (hbi : bi * cellPixelsY cellSize t < m)
    (hbj : bj * cellPixelsX cellSize t < n)
    (hne : cellValidDepths g m n (cellPixelsY cellSize t)
      (cellPixelsX cellSize t) bi bj ≠ []) :
    ∃ p ∈ selectFromGrid .shoal cellSize g m n t,
      p.cellId = (bi, bj) ∧
      p.depth ∈ cellValidDepths g m n (cellPixelsY cellSize t)
        (cellPixelsX cellSize t) bi bj ∧
      ∀ d ∈ cellValidDepths g m n (cellPixelsY cellSize t)
        (cellPixelsX cellSize t) bi bj, |p.depth| ≤ |d| := by
  have hcpy0 : 0 < cellPixelsY cellSize t :=
    lt_of_lt_of_le Nat.one_pos (le_max_left 1 _)
  have hcpx0 : 0 < cellPixelsX cellSize t :=
    lt_of_lt_of_le Nat.one_pos (le_max_left 1 _)
  have hdivy : bi * cellPixelsY cellSize t / cellPixelsY cellSize t = bi :=
    Nat.mul_div_cancel bi hcpy0
  have hdivx : bj * cellPixelsX cellSize t / cellPixelsX cellSize t = bj :=
    Nat.mul_div_cancel bj hcpx0
  have hne' : ¬ ((cellVals g (bi * cellPixelsY cellSize t)
      (min (bi * cellPixelsY cellSize t + cellPixelsY cellSize t) m)
      (bj * cellPixelsX cellSize t)
      (min (bj * cellPixelsX cellSize t + cellPixelsX cellSize t) n)).filterMap
        id).isEmpty = true := by
    rw [List.isEmpty_iff]
    exact hne
  have hsel : selectCell .shoal g t (bi * cellPixelsY cellSize t)
      (min (bi * cellPixelsY cellSize t + cellPixelsY cellSize t) m)
      (bj * cellPixelsX cellSize t)
      (min (bj * cellPixelsX cellSize t + cellPixelsX cellSize t) n)
      (bi * cellPixelsY cellSize t / cellPixelsY cellSize t)
      (bj * cellPixelsX cellSize t / cellPixelsX cellSize t) =
      some ⟨(t.apply (((nanargminPos g
          (pickMinAbs (cellValidDepths g m n (cellPixelsY cellSize t)
            (cellPixelsX cellSize t) bi bj))
          (cellCoords (bi * cellPixelsY cellSize t)
            (min (bi * cellPixelsY cellSize t + cellPixelsY cellSize t) m)
            (bj * cellPixelsX cellSize t)
            (min (bj * cellPixelsX cellSize t + cellPixelsX cellSize t) n))).2 : ℚ)
          + 1/2)
        (((nanargminPos g
          (pickMinAbs (cellValidDepths g m n (cellPixelsY cellSize t)
            (cellPixelsX cellSize t) bi bj))
          (cellCoords (bi * cellPixelsY cellSize t)
            (min (bi * cellPixelsY cellSize t + cellPixelsY cellSize t) m)
            (bj * cellPixelsX cellSize t)
            (min (bj * cellPixelsX cellSize t + cellPixelsX cellSize t) n))).1 : ℚ)
          + 1/2)).1,
        (t.apply (((nanargminPos g
          (pickMinAbs (cellValidDepths g m n (cellPixelsY cellSize t)
            (cellPixelsX cellSize t) bi bj))
          (cellCoords (bi * cellPixelsY cellSize t)
            (min (bi * cellPixelsY cellSize t + cellPixelsY cellSize t) m)
            (bj * cellPixelsX cellSize t)
            (min (bj * cellPixelsX cellSize t + cellPixelsX cellSize t) n))).2 : ℚ)
          + 1/2)
        (((nanargminPos g
          (pickMinAbs (cellValidDepths g m n (cellPixelsY cellSize t)
            (cellPixelsX cellSize t) bi bj))
          (cellCoords (bi * cellPixelsY cellSize t)
            (min (bi * cellPixelsY cellSize t + cellPixelsY cellSize t) m)
            (bj * cellPixelsX cellSize t)
            (min (bj * cellPixelsX cellSize t + cellPixelsX cellSize t) n))).1 : ℚ)
          + 1/2)).2,
        pickMinAbs (cellValidDepths g m n (cellPixelsY cellSize t)
          (cellPixelsX cellSize t) bi bj),
        .shoal, (bi, bj)⟩ := by
    rw [hdivy, hdivx]
    simp only [selectCell, cellValidDepths] at hne' ⊢
    rw [if_neg hne']
  exact ⟨_, List.mem_flatMap.mpr ⟨bi * cellPixelsY cellSize t,
    mem_blockStarts m _ bi hcpy0 hbi,
    List.mem_filterMap.mpr ⟨bj * cellPixelsX cellSize t,
      mem_blockStarts n _ bj hcpx0 hbj, hsel⟩⟩,
    rfl, pickMinAbs_mem _ hne, pickMinAbs_min _⟩

/-- Witness for C6: one 2-metre cell covering the whole 2-by-2 grid `g6`
(valid depths `-3, 5, 2, -1`) emits a sounding of minimal absolute depth. -/
theorem C6_shoal_selects_min_abs_depth_witness :
    ∃ p ∈ selectFromGrid .shoal 2 g6 2 2 t0,
      p.cellId = (0, 0) ∧
      p.depth ∈ cellValidDepths g6 2 2 (cellPixelsY 2 t0) (cellPixelsX 2 t0) 0 0 ∧
      ∀ d ∈ cellValidDepths g6 2 2 (cellPixelsY 2 t0) (cellPixelsX 2 t0) 0 0,
        |p.depth| ≤ |d| := by
  have hcpy : cellPixelsY 2 t0 = 2 := by
    norm_num [cellPixelsY, t0]
    decide
  have hcpx : cellPixelsX 2 t0 = 2 := by
    norm_num [cellPixelsX, t0]
    decide
  refine C6_shoal_selects_min_abs_depth g6 2 2 t0 2 0 0 ?_ ?_ ?_
  · simp
  · simp
  · rw [hcpy, hcpx]
    simp [cellValidDepths, cellVals, g6, List.range_succ]

/-! ## NaN-propagation helper lemmas -/

theorem rAdd_none_left (b : Option ℚ) : rAdd none b = none := by cases b <;> rfl

theorem rAdd_none_right (a : Option ℚ) : rAdd a none = none := by cases a <;> rfl

theorem rAdd_some_some (a b : ℚ) : rAdd (some a) (some b) = some (a + b) := rfl

theorem rMul_none_left (b : Option ℚ) : rMul none b = none := by cases b <;> rfl

theorem rMul_none_right (a : Option ℚ) : rMul a none = none := by cases a <;> rfl

theorem rMul_some_some (a b : ℚ) : rMul (some a) (some b) = some (a * b) := rfl

theorem rSub_none_left (b : Option ℚ) : rSub none b = none := by cases b <;> rfl

theorem rSub_none_right (a : Option ℚ) : rSub a none = none := by cases a <;> rfl

theorem rSub_some_some (a b : ℚ) : rSub (some a) (some b) = some (a - b) := rfl

theorem rDiv_none_left (b : Option ℚ) : rDiv none b = none := by cases b <;> rfl

theorem rDiv_none_right (a : Option ℚ) : rDiv a none = none := by cases a <;> rfl

theorem rDiv_some_some (a b : ℚ) :
    rDiv (some a) (some b) = if b = 0 then none else some (a / b) := rfl

/-! ## Claim C1 -/

/-- Claim C1, amended (corrected).  Invalid (NaN) input cells are NaN in
every one of the seven feature surfaces (the invalid mask never narrows);
and the five surfaces `z_score`, `roughness`, `laplacian`, `neighbor_mean`,
`neighbor_std` are NaN exactly at the invalid cells.  The claim's stronger
statement — that `slope` and `curvature` are also NaN only at invalid
cells — fails, because `_compute_slope` and `_compute_curvature` run Sobel
convolutions over the raw NaN-carrying data, which lets NaN leak into valid
neighbouring cells (see the counterexample). -/
theorem C1_invalid_mask_preserved_five_exact (sq : ℚ → ℚ) (rNb rRg : ℕ)
    (g : GridO) (m n i j : ℕ) :
    (g i j = none →
      (extractFeatures sq rNb rRg g m n).zScore i j = none ∧
      (extractFeatures sq rNb rRg g m n).slope i j = none ∧
      (extractFeatures sq rNb rRg g m n).curvature i j = none ∧
      (extractFeatures sq rNb rRg g m n).roughness i j = none ∧
      (extractFeatures sq rNb rRg g m n).laplacian i j = none ∧
      (extractFeatures sq rNb rRg g m n).neighborMean i j = none ∧
      (extractFeatures sq rNb rRg g m n).neighborStd i j = none) ∧
    ((extractFeatures sq rNb rRg g m n).zScore i j = none ↔ g i j = none) ∧
    ((extractFeatures sq rNb rRg g m n).roughness i j = none ↔ g i j = none) ∧
    ((extractFeatures sq rNb rRg g m n).laplacian i j = none ↔ g i j = none) ∧
    ((extractFeatures sq rNb rRg g m n).neighborMean i j = none ↔ g i j = none) ∧
    ((extractFeatures sq rNb rRg g m n).neighborStd i j = none ↔ g i j = none) := by
  refine ⟨fun h => ?_, ?_, ?_, ?_, ?_, ?_⟩
  · simp [extractFeatures, zScoreF, slopeF, curvatureF, roughnessF,
      laplacianF, neighborMeanF, neighborStdF, h]
  · simp [extractFeatures, zScoreF, Option.map_eq_none']
  · cases hg : g i j <;> simp [extractFeatures, roughnessF, hg]
  · cases hg : g i j <;> simp [extractFeatures, laplacianF, hg]
  · cases hg : g i j <;> simp [extractFeatures, neighborMeanF, hg]
  · cases hg : g i j <;> simp [extractFeatures, neighborStdF, hg]

/-- Counterexample to claim C1 as stated.  On `gNaN`, the cell `(1, 1)` is
valid in the input, yet both the slope surface and the curvature surface
are NaN there: the Sobel window of `(1, 1)` contains the invalid corner,
and `_compute_slope` / `_compute_curvature` convolve raw NaN data.  (The
square-root realisation is instantiated with `id`; NaN propagation does not
depend on it.) -/
theorem C1_slope_curvature_widen_invalid_mask :
    (gNaN 1 1).isSome = true ∧
    slopeF id gNaN 3 3 1 1 = none ∧
    curvatureF gNaN 3 3 1 1 = none := by
  refine ⟨rfl, ?_, ?_⟩ <;>
    simp [slopeF, curvatureF, convKernelO, sobelAx1, sobelAx0, sampleRO, reflZ,
      gNaN, rAdd_none_left, rAdd_none_right, rAdd_some_some,
      rMul_none_left, rMul_none_right, rMul_some_some, rAbs]

/-- Witness for the amended claim C1 at the concrete grid `gNaN`: the
invalid corner is NaN in the two surfaces shown, and the valid cell
`(1, 1)` is kept valid by the z-score surface. -/
theorem C1_invalid_mask_preserved_five_exact_witness :
    (extractFeatures id 2 1 gNaN 3 3).zScore 0 0 = none ∧
    (extractFeatures id 2 1 gNaN 3 3).laplacian 0 0 = none ∧
    ¬ (extractFeatures id 2 1 gNaN 3 3).zScore 1 1 = none := by
  have h0 : gNaN 0 0 = none := rfl
  have h1 : gNaN 1 1 = some 10 := rfl
  refine ⟨((C1_invalid_mask_preserved_five_exact id 2 1 gNaN 3 3 0 0).1 h0).1,
    ((C1_invalid_mask_preserved_five_exact id 2 1 gNaN 3 3 0 0).1 h0).2.2.2.2.1,
    fun hc => ?_⟩
  have := (C1_invalid_mask_preserved_five_exact id 2 1 gNaN 3 3 1 1).2.1.mp hc
  rw [h1] at this
  exact Option.noConfusion this

/-! ## Component, opening and sorting lemmas -/

/-- Expansion keeps the current cells. -/
theorem expandComp_subset_self (mask : Cell → Bool) (m n : ℕ) (s : List Cell) :
    ∀ d ∈ s, d ∈ expandComp mask m n s :=
  fun _ hd => List.mem_append_left _ hd

/-- Expansion only adds mask-true cells. -/
theorem expandComp_mask (mask : Cell → Bool) (m n : ℕ) (s : List Cell)
    (h : ∀ d ∈ s, mask d = true) :
    ∀ d ∈ expandComp mask m n s, mask d = true := by
  intro d hd
  rcases List.mem_append.mp hd with h1 | h2
  · exact h d h1
  · have hf := List.mem_filter.mp (List.mem_dedup.mp h2)
    have := hf.2
    simp only [Bool.and_eq_true] at this
    exact this.1.2

/-- Every cell of a discovered component satisfies the mask. -/
theorem compOf_mask (mask : Cell → Bool) (m n : ℕ) (c : Cell)
    (hc : mask c = true) : ∀ d ∈ compOf mask m n c, mask d = true := by
  unfold compOf
  generalize m * n = fuel
  induction fuel with
  | zero =>
    intro d hd
    simp only [Function.iterate_zero, id] at hd
    rcases List.mem_singleton.mp hd with rfl
    exact hc
  | succ k ih =>
    rw [Function.iterate_succ_apply']
    exact expandComp_mask mask m n _ ih

/-- The seed cell belongs to its component. -/
theorem compOf_mem_self (mask : Cell → Bool) (m n : ℕ) (c : Cell) :
    c ∈ compOf mask m n c := by
  unfold compOf
  generalize m * n = fuel
  induction fuel with
  | zero => simp
  | succ k ih =>
    rw [Function.iterate_succ_apply']
    exact expandComp_subset_self mask m n _ c ih

/-- Invariant of the labelling fold: every recorded component is nonempty
and all of its cells satisfy the mask. -/
theorem componentsOf_fold (mask : Cell → Bool) (m n : ℕ) :
    ∀ (cells : List Cell) (acc : List Cell × List (List Cell)),
    (∀ comp ∈ acc.2, comp ≠ [] ∧ ∀ d ∈ comp, mask d = true) →
    ∀ comp ∈ (cells.foldl
      (fun acc c =>
        if mask c = true ∧ c ∉ acc.1 then
          (acc.1 ++ compOf mask m n c, acc.2 ++ [compOf mask m n c])
        else acc) acc).2,
      comp ≠ [] ∧ ∀ d ∈ comp, mask d = true := by
  intro cells
  induction cells with
  | nil => intro acc hacc; exact hacc
  | cons c rest ih =>
    intro acc hacc
    simp only [List.foldl_cons]
    apply ih
    by_cases hc : mask c = true ∧ c ∉ acc.1
    · rw [if_pos hc]
      intro comp hcomp
      rcases List.mem_append.mp hcomp with h1 | h2
      · exact hacc comp h1
      · rcases List.mem_singleton.mp h2 with rfl
        exact ⟨List.ne_nil_of_mem (compOf_mem_self mask m n c),
          compOf_mask mask m n c hc.1⟩
    · rw [if_neg hc]
      exact hacc

/-- Every component returned by the labelling step is nonempty and lies
inside the mask. -/
theorem componentsOf_spec (mask : Cell → Bool) (m n : ℕ) :
    ∀ comp ∈ componentsOf mask m n,
      comp ≠ [] ∧ ∀ d ∈ comp, mask d = true := by
  intro comp h
  exact componentsOf_fold mask m n (allCells m n) ([], []) (by simp) comp h

/-- The structuring element is symmetric. -/
theorem offs8_neg_mem : ∀ o ∈ offs8, (-o.1, -o.2) ∈ offs8 := by decide

/-- Morphological opening is anti-extensive: an opened-mask cell was a mask
cell. -/
theorem openingM_anti_extensive (mask : Cell → Bool) (m n : ℕ) (c : Cell)
    (h : openingM mask m n c = true) : mask c = true := by
  unfold openingM dilateM at h
  rcases List.any_eq_true.mp h with ⟨o, ho, hmz⟩
  unfold maskAtZ at hmz
  split at hmz
  case isFalse => exact absurd hmz (by simp)
  case isTrue hin =>
    have hp := List.all_eq_true.mp hmz _ (offs8_neg_mem o ho)
    unfold maskAtZ at hp
    have h1 : ((((c.1 : ℤ) + o.1).toNat : ℤ)) = (c.1 : ℤ) + o.1 :=
      Int.toNat_of_nonneg hin.1
    have h2 : ((((c.2 : ℤ) + o.2).toNat : ℤ)) = (c.2 : ℤ) + o.2 :=
      Int.toNat_of_nonneg hin.2.2.1
    rw [h1, h2] at hp
    have h3 : (c.1 : ℤ) + o.1 + -o.1 = (c.1 : ℤ) := by ring
    have h4 : (c.2 : ℤ) + o.2 + -o.2 = (c.2 : ℤ) := by ring
    rw [h3, h4] at hp
    split at hp
    case isFalse => exact absurd hp (by simp)
    case isTrue =>
      simpa using hp

/-- Membership through one stable insertion. -/
theorem mem_insDesc (a x : AnomalyE) (l : List AnomalyE) :
    x ∈ insDesc a l ↔ x = a ∨ x ∈ l := by
  induction l with
  | nil => simp [insDesc]
  | cons b t ih =>
    unfold insDesc
    split_ifs
    · simp [List.mem_cons]
    · simp only [List.mem_cons, ih]
      tauto

/-- Membership through the insertion fold. -/
theorem mem_sortFold (l : List AnomalyE) :
    ∀ (acc : List AnomalyE) (x : AnomalyE),
    (x ∈ l.foldl (fun acc a => insDesc a acc) acc ↔ x ∈ acc ∨ x ∈ l) := by
  induction l with
  | nil => simp
  | cons a t ih =>
    intro acc x
    simp only [List.foldl_cons]
    rw [ih, mem_insDesc]
    simp only [List.mem_cons]
    tauto

/-- The priority sort permutes the anomaly list. -/
theorem mem_sortByPriorityDesc (x : AnomalyE) (l : List AnomalyE) :
    x ∈ sortByPriorityDesc l ↔ x ∈ l := by
  unfold sortByPriorityDesc
  rw [mem_sortFold]
  simp

/-- Every anomaly emitted by the component loop comes from a surviving
component of the given list. -/
theorem polyLoop_mem (sq : ℚ → ℚ) (cfg : PolyCfg) (geom : GeomOracle)
    (scoreGrid : Surf) (results : List (DetectorName × Surf)) (g : GridO)
    (m n : ℕ) (entropy clock : ℕ → ℕ) :
    ∀ (comps : List (List Cell)) (lab num : ℕ) (a : AnomalyE),
    a ∈ polyLoop sq cfg geom scoreGrid results g m n entropy clock comps
      lab num →
    ∃ comp ∈ comps, ∃ k, cfg.minArea ≤ comp.length ∧
      a = mkAnomaly sq cfg geom scoreGrid results g m n entropy clock k
        comp := by
  intro comps
  induction comps with
  | nil =>
    intro lab num a ha
    simp [polyLoop] at ha
  | cons comp rest ih =>
    intro lab num a ha
    unfold polyLoop at ha
    split_ifs at ha with h1 h2 h3
    · simp at ha
    · simp at ha
    · obtain ⟨comp', hc', k, hk, ha'⟩ := ih _ _ _ ha
      exact ⟨comp', List.mem_cons_of_mem _ hc', k, hk, ha'⟩
    · rcases List.mem_cons.mp ha with rfl | ha'
      · exact ⟨comp, List.mem_cons_self _ _, num, not_lt.mp h3, rfl⟩
      · obtain ⟨comp', hc', k, hk, ha''⟩ := ih _ _ _ ha'
        exact ⟨comp', List.mem_cons_of_mem _ hc', k, hk, ha''⟩

/-- Claim C8 (confirmed).  Every anomaly returned by `polygonize` reports a
pixel count at least the configured minimum area (default fallback 25):
components below the minimum are skipped before an anomaly is built. -/
theorem C8_small_components_excluded (sq : ℚ → ℚ) (cfg : PolyCfg)
    (geom : GeomOracle) (scoreGrid : Surf)
    (results : List (DetectorName × Surf)) (g : GridO) (m n : ℕ)
    (entropy clock : ℕ → ℕ) :
    ∀ a ∈ polygonize sq cfg geom scoreGrid results g m n entropy clock,
      cfg.minArea ≤ a.explanation.pixelCount ∧
      cfg.minArea ≤ a.neighborCount := by
  intro a ha
  rw [polygonize, mem_sortByPriorityDesc] at ha
  obtain ⟨comp, _, k, hk, rfl⟩ :=
    polyLoop_mem sq cfg geom scoreGrid results g m n entropy clock _ _ _ _ ha
  exact ⟨hk, hk⟩

/-- A mean over values all above a threshold stays above the threshold. -/
theorem lt_meanQ_of_forall_lt (t : ℚ) (l : List ℚ) (hne : l ≠ [])
    (h : ∀ x ∈ l, t < x) : t < meanQ l := by
  have hlen : (0 : ℚ) < l.length := by
    have : 0 < l.length := List.length_pos.mpr hne
    exact_mod_cast this
  have hsum : t * l.length < l.sum := by
    clear hlen
    induction l with
    | nil => exact absurd rfl hne
    | cons x xs ih =>
      cases xs with
      | nil =>
        have := h x (List.mem_cons_self _ _)
        simp only [List.sum_cons, List.sum_nil, List.length_cons,
          List.length_nil]
        push_cast
        linarith
      | cons y ys =>
        have hx := h x (List.mem_cons_self _ _)
        have ih' := ih (by simp) fun z hz => h z (List.mem_cons_of_mem _ hz)
        simp only [List.sum_cons, List.length_cons] at ih' ⊢
        push_cast at ih' ⊢
        linarith
  rw [meanQ, lt_div_iff₀ hlen]
  linarith

/-- Claim C9 (confirmed).  Every anomaly returned by `polygonize` has a
defined mean probability strictly above the configured anomaly threshold:
the mask keeps only cells scoring above the threshold, the opening never
adds cells, and the probability is the mean of the scores over the
component's cells. -/
theorem C9_probability_above_threshold (sq : ℚ → ℚ) (cfg : PolyCfg)
    (geom : GeomOracle) (scoreGrid : Surf)
    (results : List (DetectorName × Surf)) (g : GridO) (m n : ℕ)
    (entropy clock : ℕ → ℕ) :
    ∀ a ∈ polygonize sq cfg geom scoreGrid results g m n entropy clock,
      ∃ p, a.anomalyProbability = some p ∧ cfg.anomalyThreshold < p := by
  intro a ha
  rw [polygonize, mem_sortByPriorityDesc] at ha
  obtain ⟨comp, hcomp, k, hk, rfl⟩ :=
    polyLoop_mem sq cfg geom scoreGrid results g m n entropy clock _ _ _ _ ha
  obtain ⟨hne, hmask2⟩ := componentsOf_spec _ m n comp hcomp
  have hmask : ∀ d ∈ comp,
      rGtB (scoreGrid d.1 d.2) cfg.anomalyThreshold = true := by
    intro d hd
    have h2 := hmask2 d hd
    by_cases hlt : 1 < cfg.minArea
    · rw [if_pos hlt] at h2
      exact openingM_anti_extensive _ m n d h2
    · rw [if_neg hlt] at h2
      exact h2
  have hval : ∀ d ∈ comp, ∃ v, scoreGrid d.1 d.2 = some v ∧
      cfg.anomalyThreshold < v := by
    intro d hd
    have := hmask d hd
    unfold rGtB at this
    cases hs : scoreGrid d.1 d.2 with
    | none => rw [hs] at this; exact absurd this (by simp)
    | some v =>
      rw [hs] at this
      exact ⟨v, rfl, by simpa using this⟩
  have hvals : ∀ x ∈ (comp.map fun c => scoreGrid c.1 c.2).filterMap id,
      cfg.anomalyThreshold < x := by
    intro x hx
    obtain ⟨o, ho, hox⟩ := List.mem_filterMap.mp hx
    obtain ⟨d, hd2, hod⟩ := List.mem_map.mp ho
    obtain ⟨v, hv, hvt⟩ := hval d hd2
    have : x = v := by
      rw [← hod, hv] at hox
      simpa using hox.symm
    exact this ▸ hvt
  have hvne : (comp.map fun c => scoreGrid c.1 c.2).filterMap id ≠ [] := by
    obtain ⟨c0, hc0⟩ := List.exists_mem_of_ne_nil comp hne
    obtain ⟨v0, hv0, _⟩ := hval c0 hc0
    refine List.ne_nil_of_mem (a := v0) (List.mem_filterMap.mpr ?_)
    exact ⟨some v0, List.mem_map.mpr ⟨c0, hc0, hv0.symm ▸ rfl⟩, rfl⟩
  refine ⟨meanQ ((comp.map fun c => scoreGrid c.1 c.2).filterMap id), ?_, ?_⟩
  · show nanmeanL _ = _
    unfold nanmeanL
    rw [if_neg (by simpa [List.isEmpty_iff] using hvne)]
  · exact lt_meanQ_of_forall_lt _ _ hvne hvals

/-! ## Detector lemmas -/

/-- The running minimum fold is a lower bound. -/
theorem foldl_min_le (l : List ℚ) :
    ∀ acc : ℚ, l.foldl min acc ≤ acc ∧ ∀ x ∈ l, l.foldl min acc ≤ x := by
  induction l with
  | nil => intro acc; exact ⟨le_refl _, by simp⟩
  | cons h t ih =>
    intro acc
    simp only [List.foldl_cons]
    obtain ⟨h1, h2⟩ := ih (min acc h)
    refine ⟨le_trans h1 (min_le_left _ _), ?_⟩
    intro x hx
    rcases List.mem_cons.mp hx with rfl | hxt
    · exact le_trans h1 (min_le_right _ _)
    · exact h2 x hxt

/-- The running maximum fold is an upper bound. -/
theorem le_foldl_max (l : List ℚ) :
    ∀ acc : ℚ, acc ≤ l.foldl max acc ∧ ∀ x ∈ l, x ≤ l.foldl max acc := by
  induction l with
  | nil => intro acc; exact ⟨le_refl _, by simp⟩
  | cons h t ih =>
    intro acc
    simp only [List.foldl_cons]
    obtain ⟨h1, h2⟩ := ih (max acc h)
    refine ⟨le_trans (le_max_left _ _) h1, ?_⟩
    intro x hx
    rcases List.mem_cons.mp hx with rfl | hxt
    · exact le_trans (le_max_right _ _) h1
    · exact h2 x hxt

/-- `ndarray.min()` bounds every element. -/
theorem listMin_le (l : List ℚ) : ∀ x ∈ l, listMin l ≤ x := by
  cases l with
  | nil => simp
  | cons a t =>
    intro x hx
    rcases List.mem_cons.mp hx with rfl | hxt
    · exact (foldl_min_le t x).1
    · exact (foldl_min_le t a).2 x hxt

/-- `ndarray.max()` bounds every element. -/
theorem le_listMax (l : List ℚ) : ∀ x ∈ l, x ≤ listMax l := by
  cases l with
  | nil => simp
  | cons a t =>
    intro x hx
    rcases List.mem_cons.mp hx with rfl | hxt
    · exact (le_foldl_max t x).1
    · exact (le_foldl_max t a).2 x hxt

/-- On a nonempty batch the minimum is at most the maximum. -/
theorem listMin_le_listMax (l : List ℚ) (h : l ≠ []) :
    listMin l ≤ listMax l := by
  obtain ⟨x, hx⟩ := List.exists_mem_of_ne_nil l h
  exact le_trans (listMin_le l x hx) (le_listMax l x hx)

/-- Sorted insertion preserves membership. -/
theorem mem_insSorted (a x : ℚ) (l : List ℚ) :
    x ∈ insSorted a l ↔ x = a ∨ x ∈ l := by
  induction l with
  | nil => simp [insSorted]
  | cons b t ih =>
    unfold insSorted
    split_ifs
    · simp [List.mem_cons]
    · simp only [List.mem_cons, ih]
      tauto

/-- Sorting preserves membership. -/
theorem mem_sortQ (x : ℚ) (l : List ℚ) : x ∈ sortQ l ↔ x ∈ l := by
  unfold sortQ
  induction l with
  | nil => simp
  | cons a t ih =>
    simp only [List.foldr_cons]
    rw [mem_insSorted]
    simp only [List.mem_cons]
    tauto

/-- Sorted insertion adds one element to the length. -/
theorem length_insSorted (a : ℚ) (l : List ℚ) :
    (insSorted a l).length = l.length + 1 := by
  induction l with
  | nil => rfl
  | cons b t ih =>
    unfold insSorted
    split_ifs
    · rfl
    · simp [ih]

/-- Sorting preserves length. -/
theorem length_sortQ (l : List ℚ) : (sortQ l).length = l.length := by
  unfold sortQ
  induction l with
  | nil => rfl
  | cons a t ih => simp [length_insSorted, ih]

/-- A common lower bound of a nonempty list bounds its median. -/
theorem le_medianQ (c : ℚ) (l : List ℚ) (hne : l ≠ [])
    (h : ∀ x ∈ l, c ≤ x) : c ≤ medianQ l := by
  have hlen : 0 < (sortQ l).length := by
    rw [length_sortQ]
    exact List.length_pos.mpr hne
  have hidx : ∀ k, k < (sortQ l).length → c ≤ (sortQ l).getD k 0 := by
    intro k hk
    rw [List.getD_eq_getElem _ _ hk]
    exact h _ ((mem_sortQ _ l).mp (List.getElem_mem _))
  simp only [medianQ]
  split_ifs with hpar
  · exact hidx _ (by omega)
  · have h1 := hidx ((sortQ l).length / 2 - 1) (by omega)
    have h2 := hidx ((sortQ l).length / 2) (by omega)
    linarith

/-- The MAD of a nonempty sample is nonnegative. -/
theorem madQ_nonneg (l : List ℚ) (hne : l ≠ []) : 0 ≤ madQ l := by
  unfold madQ
  refine le_medianQ 0 _ ?_ ?_
  · simpa using hne
  · intro x hx
    obtain ⟨y, _, rfl⟩ := List.mem_map.mp hx
    exact abs_nonneg _

/-- The z-score detector surface is defined (never NaN) at every cell. -/
theorem runZscoreDetector_isSome (cfg : ZscoreCfg) (m n : ℕ) (z : Surf)
    (i j : ℕ) : (runZscoreDetector cfg m n z i j).isSome = true := by
  unfold runZscoreDetector
  simp only []
  split_ifs <;> simp

/-- The z-score detector emits zero at a NaN z-score cell. -/
theorem runZscoreDetector_nan_zero (cfg : ZscoreCfg) (m n : ℕ) (z : Surf)
    (i j : ℕ) (hz : z i j = none) :
    runZscoreDetector cfg m n z i j = some 0 := by
  unfold runZscoreDetector
  simp only []
  split_ifs <;>
    simp [hz, rSub_none_left, rAbs, rDiv_none_left, rMinQ, rNanToNum]

/-- With positive configured thresholds, the z-score detector surface lies
in `[0, 1]` everywhere. -/
theorem runZscoreDetector_bounds (cfg : ZscoreCfg) (m n : ℕ) (z : Surf)
    (hmad : 0 < cfg.madThreshold) (hthr : 0 < cfg.threshold) (i j : ℕ) :
    ∃ v, runZscoreDetector cfg m n z i j = some v ∧ 0 ≤ v ∧ v ≤ 1 := by
  unfold runZscoreDetector
  simp only []
  cases hz : z i j with
  | none =>
    refine ⟨0, ?_, le_refl 0, by norm_num⟩
    split_ifs <;>
      simp [hz, rSub_none_left, rAbs, rDiv_none_left, rMinQ, rNanToNum]
  | some a =>
    by_cases hu : cfg.useMad = true
    · by_cases he : ((allCells m n).filterMap fun c => z c.1 c.2).isEmpty = true
      · refine ⟨0, ?_, le_refl 0, by norm_num⟩
        simp [hu, he]
      · have hvne : ((allCells m n).filterMap fun c => z c.1 c.2) ≠ [] := by
          simpa [List.isEmpty_iff] using he
        have hmadnn : 0 ≤ madQ ((allCells m n).filterMap fun c => z c.1 c.2) :=
          madQ_nonneg _ hvne
        by_cases hml : madQ ((allCells m n).filterMap fun c => z c.1 c.2) < tiny
        · refine ⟨min (|a - medianQ ((allCells m n).filterMap fun c => z c.1 c.2)|
              / cfg.madThreshold) 1, ?_, ?_, min_le_right _ _⟩
          · simp [hu, he, hml, hz, rSub_some_some, rAbs, rDiv_some_some,
              ne_of_gt hmad, rMinQ, rNanToNum]
          · exact le_min (div_nonneg (abs_nonneg _) hmad.le) zero_le_one
        · have hmadpos : 0 < madQ ((allCells m n).filterMap fun c => z c.1 c.2) := by
            have : tiny ≤ madQ ((allCells m n).filterMap fun c => z c.1 c.2) :=
              not_lt.mp hml
            have htiny : (0 : ℚ) < tiny := by norm_num [tiny]
            linarith
          refine ⟨min ((|a - medianQ ((allCells m n).filterMap fun c => z c.1 c.2)|
              / madQ ((allCells m n).filterMap fun c => z c.1 c.2))
              / cfg.madThreshold) 1, ?_, ?_, min_le_right _ _⟩
          · simp [hu, he, hml, hz, rSub_some_some, rAbs, rDiv_some_some,
              ne_of_gt hmad, ne_of_gt hmadpos, rMinQ, rNanToNum]
          · exact le_min
              (div_nonneg (div_nonneg (abs_nonneg _) hmadpos.le) hmad.le)
              zero_le_one
    · refine ⟨min (|a| / cfg.threshold) 1, ?_, ?_, min_le_right _ _⟩
      · simp [hu, hz, rAbs, rDiv_some_some, ne_of_gt hthr, rMinQ, rNanToNum]
      · exact le_min (div_nonneg (abs_nonneg _) hthr.le) zero_le_one

/-- A key absent from the first zip component is not found by `lookup`. -/
theorem lookup_zip_eq_none {α β : Type} [BEq α] [LawfulBEq α]
    (l1 : List α) (l2 : List β) (a : α) (h : a ∉ l1) :
    (l1.zip l2).lookup a = none := by
  induction l1 generalizing l2 with
  | nil => simp
  | cons x t ih =>
    cases l2 with
    | nil => simp
    | cons y t2 =>
      have hax : (a == x) = false := by
        simp only [beq_eq_false_iff_ne]
        intro hc
        exact h (hc ▸ List.mem_cons_self x t)
      simp only [List.zip_cons_cons, List.lookup, hax]
      exact ih t2 fun hm => h (List.mem_cons_of_mem _ hm)

/-- A value found by `lookup` in a zip comes from the second list. -/
theorem lookup_zip_mem {α β : Type} [BEq α] [LawfulBEq α]
    (l1 : List α) (l2 : List β) (a : α) (b : β)
    (h : (l1.zip l2).lookup a = some b) : b ∈ l2 := by
  induction l1 generalizing l2 with
  | nil => simp at h
  | cons x t ih =>
    cases l2 with
    | nil => simp at h
    | cons y t2 =>
      simp only [List.zip_cons_cons, List.lookup] at h
      by_cases hax : (a == x) = true
      · rw [hax] at h
        rw [Option.some_inj] at h
        exact h ▸ List.mem_cons_self y t2
      · rw [Bool.not_eq_true] at hax
        rw [hax] at h
        exact List.mem_cons_of_mem y (ih t2 h)

/-- Values and zero-at-invalid behaviour of the isolation-forest surface:
every cell is defined and in `[0, 1]`, and invalid source cells keep the
scatter's zero fill. -/
theorem runIsolationForest_shape (model : IsoModel) (g : GridO)
    (f : FeaturesE) (m n : ℕ) (s : Surf)
    (h : runIsolationForest model g f m n = some s) :
    (∀ i j, ∃ v, s i j = some v ∧ 0 ≤ v ∧ v ≤ 1) ∧
    (∀ i j, g i j = none → s i j = some 0) := by
  unfold runIsolationForest at h
  simp only [] at h
  split_ifs at h with hvc
  rw [Option.some_inj] at h
  subst h
  have hvcne : validCellsOf g m n ≠ [] := by
    simpa [List.isEmpty_iff] using hvc
  have hrawne :
      ((List.range (validCellsOf g m n).length).map
        fun k => -(model (featureMatrix g f m n) k)) ≠ [] := by
    simp only [ne_eq, List.map_eq_nil_iff, List.range_eq_nil]
    exact fun hl => hvcne (List.length_eq_zero.mp hl)
  constructor
  · intro i j
    simp only []
    set raw := (List.range (validCellsOf g m n).length).map
      fun k => -(model (featureMatrix g f m n) k) with hraw
    cases hl : ((validCellsOf g m n).zip
        (raw.map fun v => (v - listMin raw) /
          (listMax raw - listMin raw + tiny))).lookup (i, j) with
    | none => exact ⟨0, by simp [hl], le_refl 0, zero_le_one⟩
    | some w =>
      have hwmem : w ∈ raw.map fun v => (v - listMin raw) /
          (listMax raw - listMin raw + tiny) :=
        lookup_zip_mem _ _ _ _ hl
      obtain ⟨v, hv, rfl⟩ := List.mem_map.mp hwmem
      have hden : (0 : ℚ) < listMax raw - listMin raw + tiny := by
        have h1 := listMin_le_listMax raw hrawne
        have htiny : (0 : ℚ) < tiny := by norm_num [tiny]
        linarith
      refine ⟨(v - listMin raw) / (listMax raw - listMin raw + tiny),
        by simp [hl], ?_, ?_⟩
      · exact div_nonneg (by linarith [listMin_le raw v hv]) hden.le
      · rw [div_le_one hden]
        have := le_listMax raw v hv
        have htiny : (0 : ℚ) < tiny := by norm_num [tiny]
        linarith
  · intro i j hg
    simp only []
    have hnm : (i, j) ∉ validCellsOf g m n := by
      intro hm
      have := (List.mem_filter.mp hm).2
      rw [hg] at this
      simp at this
    rw [lookup_zip_eq_none _ _ _ hnm]
    rfl

/-- Accumulating weights by a left fold is summing them. -/
theorem foldl_add_weights (weights : DetectorName → ℚ) :
    ∀ (l : List (DetectorName × Surf)) (a : ℚ),
    l.foldl (fun acc dr => acc + weights dr.1) a =
      a + (l.map fun dr => weights dr.1).sum := by
  intro l
  induction l with
  | nil => intro a; simp
  | cons x xs ih =>
    intro a
    simp only [List.foldl_cons, List.map_cons, List.sum_cons, ih]
    ring

/-- Left fold of weighted defined scores from a defined accumulator stays
defined, with the accumulated weighted sum bounded by the weight total when
weights are nonnegative and scores lie in `[0, 1]`. -/
theorem combine_fold_bound (weights : DetectorName → ℚ) (i j : ℕ) :
    ∀ (results : List (DetectorName × Surf)) (acc : ℚ),
    (∀ dr ∈ results, ∃ v, dr.2 i j = some v ∧ 0 ≤ v ∧ v ≤ 1) →
    (∀ dr ∈ results, 0 ≤ weights dr.1) →
    ∃ S, results.foldl
      (fun acc dr => rAdd acc (rMul (some (weights dr.1)) (dr.2 i j)))
      (some acc) = some (acc + S) ∧
      0 ≤ S ∧ S ≤ (results.map fun dr => weights dr.1).sum := by
  intro results
  induction results with
  | nil =>
    intro acc _ _
    exact ⟨0, by simp, le_refl 0, by simp⟩
  | cons dr rest ih =>
    intro acc hs hw
    obtain ⟨v, hv, hv0, hv1⟩ := hs dr (List.mem_cons_self _ _)
    have hwd := hw dr (List.mem_cons_self _ _)
    obtain ⟨S, hS, hS0, hSle⟩ := ih (acc + weights dr.1 * v)
      (fun d hd => hs d (List.mem_cons_of_mem _ hd))
      (fun d hd => hw d (List.mem_cons_of_mem _ hd))
    refine ⟨weights dr.1 * v + S, ?_, ?_, ?_⟩
    · simp only [List.foldl_cons, hv, rMul_some_some, rAdd_some_some]
      rw [hS]
      exact congrArg some (by ring)
    · have := mul_nonneg hwd hv0
      linarith
    · simp only [List.map_cons, List.sum_cons]
      have hle : weights dr.1 * v ≤ weights dr.1 := by nlinarith
      linarith

/-- Left fold of weighted all-zero scores returns the accumulator. -/
theorem combine_fold_zero (weights : DetectorName → ℚ) (i j : ℕ) :
    ∀ (results : List (DetectorName × Surf)) (acc : ℚ),
    (∀ dr ∈ results, dr.2 i j = some 0) →
    results.foldl
      (fun acc dr => rAdd acc (rMul (some (weights dr.1)) (dr.2 i j)))
      (some acc) = some acc := by
  intro results
  induction results with
  | nil => intro acc _; rfl
  | cons dr rest ih =>
    intro acc hs
    have hv := hs dr (List.mem_cons_self _ _)
    simp only [List.foldl_cons, hv, rMul_some_some, rAdd_some_some,
      mul_zero, add_zero]
    exact ih acc fun d hd => hs d (List.mem_cons_of_mem _ hd)

/-- The combination is a defined value in `[0, 1]` whenever every present
surface is and the configured weights are nonnegative. -/
theorem combineScores_bounds (weights : DetectorName → ℚ)
    (results : List (DetectorName × Surf)) (i j : ℕ)
    (hs : ∀ dr ∈ results, ∃ v, dr.2 i j = some v ∧ 0 ≤ v ∧ v ≤ 1)
    (hw : ∀ dr ∈ results, 0 ≤ weights dr.1) :
    ∃ v, combineScores weights results i j = some v ∧ 0 ≤ v ∧ v ≤ 1 := by
  obtain ⟨S, hS, hS0, hSle⟩ := combine_fold_bound weights i j results 0 hs hw
  have hT0 : 0 ≤ (results.map fun dr => weights dr.1).sum := le_trans hS0 hSle
  unfold combineScores
  simp only []
  have htot : results.foldl (fun acc dr => acc + weights dr.1) 0 =
      (results.map fun dr => weights dr.1).sum := by
    rw [foldl_add_weights]
    ring
  rw [htot, hS]
  simp only [zero_add]
  by_cases hT : 0 < (results.map fun dr => weights dr.1).sum
  · rw [if_pos hT, rDiv_some_some, if_neg (ne_of_gt hT)]
    exact ⟨_, rfl, div_nonneg hS0 hT.le, by rw [div_le_one hT]; exact hSle⟩
  · rw [if_neg hT]
    have : S = 0 := le_antisymm (le_trans hSle (not_lt.mp hT)) hS0
    exact ⟨S, rfl, hS0, by rw [this]; exact zero_le_one⟩

/-- Structure of a successful `detect`: the score grid is the weighted
combination of the returned detector surfaces, and every returned surface
is one of the two embedded detectors. -/
theorem detect_cases (cfg : DetectorCfg) (model : IsoModel) (g : GridO)
    (f : FeaturesE) (m n : ℕ) (r : DetectionResultE)
    (hd : detect cfg model g f m n = some r) :
    r.scoreGrid = combineScores cfg.weights.get r.results ∧
    ∀ dr ∈ r.results,
      (∃ s, runIsolationForest model g f m n = some s ∧
        dr = (DetectorName.isolationForest, s)) ∨
      dr = (DetectorName.zscore, runZscoreDetector cfg.zscoreCfg m n f.zScore) := by
  unfold detect at hd
  obtain ⟨rIso, hrIso, hr⟩ := Option.map_eq_some'.mp hd
  simp only [] at hr
  subst hr
  refine ⟨rfl, ?_⟩
  intro dr hdr
  simp only [] at hdr
  rcases List.mem_append.mp hdr with h1 | h2
  · left
    by_cases hie : cfg.isoEnabled = true
    · rw [if_pos hie] at hrIso
      obtain ⟨s, hsrun, hsr⟩ := Option.map_eq_some'.mp hrIso
      rw [← hsr] at h1
      rcases List.mem_singleton.mp h1 with rfl
      exact ⟨s, hsrun, rfl⟩
    · rw [if_neg hie] at hrIso
      rw [← Option.some.inj hrIso] at h1
      exact absurd h1 (by simp)
  · by_cases hze : cfg.zscoreEnabled = true
    · rw [if_pos hze] at h2
      exact Or.inr (List.mem_singleton.mp h2)
    · rw [if_neg hze] at h2
      exact absurd h2 (by simp)

/-- Claim C10 (confirmed).  Whenever `detect` succeeds on extractor-built
features, its combined score grid is a defined (non-NaN) value at every
cell, and it is exactly zero at every cell that is invalid in the input
grid: the isolation forest scatters scores only into valid cells, and the
z-score detector sanitises NaN to zero. -/
theorem C10_combined_defined_and_zero_on_invalid (sq : ℚ → ℚ)
    (rNb rRg : ℕ) (cfg : DetectorCfg) (model : IsoModel) (g : GridO)
    (m n : ℕ) (r : DetectionResultE)
    (hd : detect cfg model g (extractFeatures sq rNb rRg g m n) m n = some r) :
    (∀ i j, (r.scoreGrid i j).isSome = true) ∧
    (∀ i j, g i j = none → r.scoreGrid i j = some 0) := by
  obtain ⟨hscore, hres⟩ := detect_cases cfg model g _ m n r hd
  constructor
  · intro i j
    rw [hscore]
    have hs : ∀ dr ∈ r.results, ∃ v, dr.2 i j = some v := by
      intro dr hdr
      rcases hres dr hdr with ⟨s, hsrun, rfl⟩ | rfl
      · obtain ⟨v, hv, _, _⟩ :=
          (runIsolationForest_shape model g _ m n s hsrun).1 i j
        exact ⟨v, hv⟩
      · obtain ⟨v, hv⟩ := Option.isSome_iff_exists.mp
          (runZscoreDetector_isSome cfg.zscoreCfg m n _ i j)
        exact ⟨v, hv⟩
    unfold combineScores
    have : ∀ (results : List (DetectorName × Surf)) (acc : ℚ),
        (∀ dr ∈ results, ∃ v, dr.2 i j = some v) →
        ∃ S, results.foldl
          (fun acc dr => rAdd acc (rMul (some (cfg.weights.get dr.1)) (dr.2 i j)))
          (some acc) = some S := by
      intro results
      induction results with
      | nil => intro acc _; exact ⟨acc, rfl⟩
      | cons dr rest ih =>
        intro acc hsr
        obtain ⟨v, hv⟩ := hsr dr (List.mem_cons_self _ _)
        simp only [List.foldl_cons, hv, rMul_some_some, rAdd_some_some]
        exact ih _ fun d hdd => hsr d (List.mem_cons_of_mem _ hdd)
    obtain ⟨S, hS⟩ := this r.results 0 hs
    simp only []
    rw [hS]
    split_ifs with hT
    · rw [rDiv_some_some, if_neg (ne_of_gt hT)]
      rfl
    · rfl
  · intro i j hg
    rw [hscore]
    have hz : ∀ dr ∈ r.results, dr.2 i j = some 0 := by
      intro dr hdr
      rcases hres dr hdr with ⟨s, hsrun, rfl⟩ | rfl
      · exact (runIsolationForest_shape model g _ m n s hsrun).2 i j hg
      · refine runZscoreDetector_nan_zero cfg.zscoreCfg m n _ i j ?_
        show zScoreF sq g m n rNb i j = none
        simp [zScoreF, hg]
    unfold combineScores
    simp only []
    rw [combine_fold_zero cfg.weights.get i j r.results 0 hz]
    split_ifs with hT
    · rw [rDiv_some_some, if_neg (ne_of_gt hT), zero_div]
    · rfl

/-- Claim C2, amended (corrected).  For every input grid and features, the
combined surface returned by `detect` lies in `[0, 1]` at every valid cell
— provided the configured detector weights are nonnegative and the
configured z-score detector thresholds are positive.  The claim's
universal quantification over arbitrary weight/threshold configurations
fails (see the counterexample): a negative weight or threshold drives the
combination negative. -/
theorem C2_combined_in_unit_interval (cfg : DetectorCfg) (model : IsoModel)
    (g : GridO) (f : FeaturesE) (m n : ℕ) (r : DetectionResultE)
    (hwIso : 0 ≤ cfg.weights.isolationForest)
    (hwZ : 0 ≤ cfg.weights.zscore)
    (hmad : 0 < cfg.zscoreCfg.madThreshold)
    (hthr : 0 < cfg.zscoreCfg.threshold)
    (hd : detect cfg model g f m n = some r) :
    ∀ i j, (g i j).isSome = true →
      ∃ v, r.scoreGrid i j = some v ∧ 0 ≤ v ∧ v ≤ 1 := by
  obtain ⟨hscore, hres⟩ := detect_cases cfg model g f m n r hd
  intro i j _
  rw [hscore]
  refine combineScores_bounds cfg.weights.get r.results i j ?_ ?_
  · intro dr hdr
    rcases hres dr hdr with ⟨s, hsrun, rfl⟩ | rfl
    · exact (runIsolationForest_shape model g f m n s hsrun).1 i j
    · exact runZscoreDetector_bounds cfg.zscoreCfg m n _ hmad hthr i j
  · intro dr hdr
    rcases hres dr hdr with ⟨s, _, rfl⟩ | rfl
    · exact hwIso
    · exact hwZ

/-! ## Reproducibility lemmas (claim C7) -/

/-- The stripped anomaly does not depend on the entropy stream, the clock,
or the creation index: those feed only `id`, `run_id` and `created_at`. -/
theorem mkAnomaly_strip (sq : ℚ → ℚ) (cfg : PolyCfg) (geom : GeomOracle)
    (scoreGrid : Surf) (results : List (DetectorName × Surf)) (g : GridO)
    (m n : ℕ) (e1 c1 e2 c2 : ℕ → ℕ) (k1 k2 : ℕ) (comp : List Cell) :
    (mkAnomaly sq cfg geom scoreGrid results g m n e1 c1 k1 comp).strip =
    (mkAnomaly sq cfg geom scoreGrid results g m n e2 c2 k2 comp).strip := rfl

/-- The sort key factors through the strip. -/
theorem qcPriority_strip (a : AnomalyE) : a.qcPriority = a.strip.qcPriority :=
  rfl

/-- Stable insertion commutes with stripping. -/
theorem insDesc_strip (a1 a2 : AnomalyE) (ha : a1.strip = a2.strip) :
    ∀ (l1 l2 : List AnomalyE),
    l1.map AnomalyE.strip = l2.map AnomalyE.strip →
    (insDesc a1 l1).map AnomalyE.strip =
    (insDesc a2 l2).map AnomalyE.strip := by
  have hpa : a1.qcPriority = a2.qcPriority := by
    rw [qcPriority_strip, ha, ← qcPriority_strip]
  intro l1
  induction l1 with
  | nil =>
    intro l2 hl
    cases l2 with
    | nil => simp [insDesc, ha]
    | cons b2 t2 => simp at hl
  | cons b1 t1 ih =>
    intro l2 hl
    cases l2 with
    | nil => simp at hl
    | cons b2 t2 =>
      simp only [List.map_cons, List.cons.injEq] at hl
      obtain ⟨hb, ht⟩ := hl
      have hpb : b1.qcPriority = b2.qcPriority := by
        rw [qcPriority_strip, hb, ← qcPriority_strip]
      unfold insDesc
      rw [hpb, hpa]
      split_ifs
      · simp only [List.map_cons, ha, hb, ht]
      · simp only [List.map_cons, hb]
        rw [ih t2 ht]

/-- The insertion fold commutes with stripping. -/
theorem sortFold_strip :
    ∀ (l1 l2 acc1 acc2 : List AnomalyE),
    l1.map AnomalyE.strip = l2.map AnomalyE.strip →
    acc1.map AnomalyE.strip = acc2.map AnomalyE.strip →
    (l1.foldl (fun acc a => insDesc a acc) acc1).map AnomalyE.strip =
    (l2.foldl (fun acc a => insDesc a acc) acc2).map AnomalyE.strip := by
  intro l1
  induction l1 with
  | nil =>
    intro l2 acc1 acc2 hl hacc
    cases l2 with
    | nil => exact hacc
    | cons b2 t2 => simp at hl
  | cons a1 t1 ih =>
    intro l2 acc1 acc2 hl hacc
    cases l2 with
    | nil => simp at hl
    | cons a2 t2 =>
      simp only [List.map_cons, List.cons.injEq] at hl
      obtain ⟨ha, ht⟩ := hl
      simp only [List.foldl_cons]
      exact ih t2 _ _ ht (insDesc_strip a1 a2 ha acc1 acc2 hacc)

/-- The priority sort commutes with stripping. -/
theorem sortByPriorityDesc_strip (l1 l2 : List AnomalyE)
    (h : l1.map AnomalyE.strip = l2.map AnomalyE.strip) :
    (sortByPriorityDesc l1).map AnomalyE.strip =
    (sortByPriorityDesc l2).map AnomalyE.strip :=
  sortFold_strip l1 l2 [] [] h rfl

/-- The component loop is reproducible up to stripping: two runs over the
same components with different entropy/clock streams agree on every
spec-level field. -/
theorem polyLoop_strip (sq : ℚ → ℚ) (cfg : PolyCfg) (geom : GeomOracle)
    (scoreGrid : Surf) (results : List (DetectorName × Surf)) (g : GridO)
    (m n : ℕ) (e1 c1 e2 c2 : ℕ → ℕ) :
    ∀ (comps : List (List Cell)) (lab num : ℕ),
    (polyLoop sq cfg geom scoreGrid results g m n e1 c1 comps lab num).map
      AnomalyE.strip =
    (polyLoop sq cfg geom scoreGrid results g m n e2 c2 comps lab num).map
      AnomalyE.strip := by
  intro comps
  induction comps with
  | nil => intro lab num; rfl
  | cons comp rest ih =>
    intro lab num
    unfold polyLoop
    split_ifs
    · rfl
    · rfl
    · exact ih _ _
    · simp only [List.map_cons]
      rw [mkAnomaly_strip sq cfg geom scoreGrid results g m n e1 c1 e2 c2
        num num comp, ih _ _]

/-- Claim C7, amended (corrected).  For a fixed grid, configuration, seeded
model oracle and geometry oracle, two runs of the analysis produce anomaly
lists that agree on every spec-level field (geometry, centroid, area, type,
probability, confidence, QC priority, explanation, depth statistics, pixel
count) in identical descending-priority order — for any entropy and clock
streams, i.e. regardless of the freshly drawn `uuid4` identifiers and
`utcnow` timestamps, which are the only fields that differ between runs
(see the counterexample). -/
theorem C7_reproducible_up_to_fresh_ids (sq : ℚ → ℚ) (rNb rRg : ℕ)
    (dcfg : DetectorCfg) (pcfg : PolyCfg) (model : IsoModel)
    (geom : GeomOracle) (g : GridO) (m n : ℕ) (e1 c1 e2 c2 : ℕ → ℕ) :
    (runAnalysis sq rNb rRg dcfg pcfg model geom e1 c1 g m n).map
      (List.map AnomalyE.strip) =
    (runAnalysis sq rNb rRg dcfg pcfg model geom e2 c2 g m n).map
      (List.map AnomalyE.strip) := by
  unfold runAnalysis
  cases hd : detect dcfg model g (extractFeatures sq rNb rRg g m n) m n with
  | none => rfl
  | some r =>
    simp only [Option.map_some']
    congr 1
    unfold polygonize
    exact sortByPriorityDesc_strip _ _
      (polyLoop_strip sq pcfg geom r.scoreGrid r.results g m n e1 c1 e2 c2
        _ 1 0)

/-- The z-score feature surface of the spike grid (3-by-3 window,
square root realised by `id`). -/
theorem gX_zscore_values :
    zScoreF id gX 1 3 1 0 0 = some (-2) ∧
    zScoreF id gX 1 3 1 0 1 = some 3 ∧
    zScoreF id gX 1 3 1 0 2 = some (-2) := by
  refine ⟨?_, ?_, ?_⟩ <;>
    norm_num [zScoreF, localMean, localStd, localVar, localCount, convBox,
      offsets, sampleC, dataFilled, validInd, gX, tiny, List.range_succ,
      show (2:ℤ).toNat = 2 from rfl, show (1:ℤ).toNat = 1 from rfl,
      show (0:ℤ).toNat = 0 from rfl]

/-- The valid z-scores of the spike grid in raster order. -/
theorem gX_valid_zscores :
    (allCells 1 3).filterMap
      (fun c => zScoreF id gX 1 3 1 c.1 c.2) = [-2, 3, -2] := by
  have h := gX_zscore_values
  simp only [allCells, List.range_succ, List.range_zero]
  simp [h.1, h.2.1, h.2.2]

/-- Median and MAD of the spike grid's z-scores. -/
theorem gX_median_mad : medianQ [-2, 3, -2] = -2 ∧ madQ [-2, 3, -2] = 0 := by
  constructor <;> norm_num [madQ, medianQ, sortQ, insSorted]

/-- The z-score detector surface over the spike grid. -/
theorem gX_zscore_surface :
    runZscoreDetector dcfgX.zscoreCfg 1 3 (zScoreF id gX 1 3 1) 0 0 = some 0 ∧
    runZscoreDetector dcfgX.zscoreCfg 1 3 (zScoreF id gX 1 3 1) 0 1 = some 1 ∧
    runZscoreDetector dcfgX.zscoreCfg 1 3 (zScoreF id gX 1 3 1) 0 2 = some 0 := by
  have h1 := gX_zscore_values
  have hv := gX_valid_zscores
  have hm := gX_median_mad
  refine ⟨?_, ?_, ?_⟩ <;>
  · simp only [runZscoreDetector]
    norm_num [dcfgX, hv, hm.1, hm.2, h1.1, h1.2.1, h1.2.2, tiny,
      rSub, rAbs, rDiv, rMinQ, rNanToNum]

/-- The combined score surface over the spike grid. -/
theorem gX_combined_scores :
    combineScores dcfgX.weights.get
      [(DetectorName.zscore,
        runZscoreDetector dcfgX.zscoreCfg 1 3 (zScoreF id gX 1 3 1))] 0 0 =
      some 0 ∧
    combineScores dcfgX.weights.get
      [(DetectorName.zscore,
        runZscoreDetector dcfgX.zscoreCfg 1 3 (zScoreF id gX 1 3 1))] 0 1 =
      some 1 ∧
    combineScores dcfgX.weights.get
      [(DetectorName.zscore,
        runZscoreDetector dcfgX.zscoreCfg 1 3 (zScoreF id gX 1 3 1))] 0 2 =
      some 0 := by
  have h4 := gX_zscore_surface
  refine ⟨?_, ?_, ?_⟩
  · simp only [combineScores, List.foldl_cons, List.foldl_nil]
    rw [h4.1]
    norm_num [WeightsCfg.get, dcfgX, rMul, rAdd, rDiv]
  · simp only [combineScores, List.foldl_cons, List.foldl_nil]
    rw [h4.2.1]
    norm_num [WeightsCfg.get, dcfgX, rMul, rAdd, rDiv]
  · simp only [combineScores, List.foldl_cons, List.foldl_nil]
    rw [h4.2.2]
    norm_num [WeightsCfg.get, dcfgX, rMul, rAdd, rDiv]

/-- The thresholded mask of the spike grid has exactly one component, the
spike cell. -/
theorem gX_components :
    componentsOf (fun c =>
      rGtB (combineScores dcfgX.weights.get
        [(DetectorName.zscore,
          runZscoreDetector dcfgX.zscoreCfg 1 3 (zScoreF id gX 1 3 1))] c.1 c.2)
        pcfgX.anomalyThreshold) 1 3 = [[(0, 1)]] := by
  have h5 := gX_combined_scores
  have hmask0 : rGtB (combineScores dcfgX.weights.get
      [(DetectorName.zscore,
        runZscoreDetector dcfgX.zscoreCfg 1 3 (zScoreF id gX 1 3 1))] 0 0)
      pcfgX.anomalyThreshold = false := by
    rw [h5.1]
    norm_num [rGtB, pcfgX]
  have hmask1 : rGtB (combineScores dcfgX.weights.get
      [(DetectorName.zscore,
        runZscoreDetector dcfgX.zscoreCfg 1 3 (zScoreF id gX 1 3 1))] 0 1)
      pcfgX.anomalyThreshold = true := by
    rw [h5.2.1]
    norm_num [rGtB, pcfgX]
  have hmask2 : rGtB (combineScores dcfgX.weights.get
      [(DetectorName.zscore,
        runZscoreDetector dcfgX.zscoreCfg 1 3 (zScoreF id gX 1 3 1))] 0 2)
      pcfgX.anomalyThreshold = false := by
    rw [h5.2.2]
    norm_num [rGtB, pcfgX]
  have hcomp : compOf (fun c =>
      rGtB (combineScores dcfgX.weights.get
        [(DetectorName.zscore,
          runZscoreDetector dcfgX.zscoreCfg 1 3 (zScoreF id gX 1 3 1))] c.1 c.2)
        pcfgX.anomalyThreshold) 1 3 (0, 1) = [(0, 1)] := by
    have hexp : expandComp (fun c =>
        rGtB (combineScores dcfgX.weights.get
          [(DetectorName.zscore,
            runZscoreDetector dcfgX.zscoreCfg 1 3 (zScoreF id gX 1 3 1))] c.1 c.2)
          pcfgX.anomalyThreshold) 1 3 [(0, 1)] = [(0, 1)] := by
      simp [expandComp, nbrs, inBounds, hmask0, hmask2]
    unfold compOf
    rw [show (1 * 3) = 3 from rfl, Function.iterate_succ_apply,
      Function.iterate_succ_apply, Function.iterate_succ_apply,
      Function.iterate_zero_apply, hexp, hexp, hexp]
  simp only [componentsOf, allCells, List.range_succ, List.range_zero,
    List.map_nil, List.map_cons, List.flatMap_cons, List.flatMap_nil,
    List.nil_append, List.append_nil, List.foldl_cons, List.foldl_nil]
  norm_num [hmask0, hmask1, hmask2, hcomp]

/-- Polygonizing the spike grid yields exactly one anomaly, built over the
spike component with creation index zero, for any entropy/clock streams. -/
theorem gX_polygonize (e c : ℕ → ℕ) :
    polygonize id pcfgX geomZero
      (combineScores dcfgX.weights.get
        [(DetectorName.zscore,
          runZscoreDetector dcfgX.zscoreCfg 1 3 (zScoreF id gX 1 3 1))])
      [(DetectorName.zscore,
        runZscoreDetector dcfgX.zscoreCfg 1 3 (zScoreF id gX 1 3 1))]
      gX 1 3 e c =
    [mkAnomaly id pcfgX geomZero
      (combineScores dcfgX.weights.get
        [(DetectorName.zscore,
          runZscoreDetector dcfgX.zscoreCfg 1 3 (zScoreF id gX 1 3 1))])
      [(DetectorName.zscore,
        runZscoreDetector dcfgX.zscoreCfg 1 3 (zScoreF id gX 1 3 1))]
      gX 1 3 e c 0 [(0, 1)]] := by
  simp only [polygonize]
  rw [if_neg (show ¬ 1 < pcfgX.minArea by norm_num [pcfgX])]
  rw [gX_components]
  simp only [polyLoop]
  rw [if_neg (by norm_num), if_neg (by norm_num),
    if_neg (show ¬ [(0, 1)].length < pcfgX.minArea by norm_num [pcfgX])]
  simp [polyLoop, sortByPriorityDesc, insDesc]

/-- `detect` on the spike grid (isolation forest disabled) returns the
z-score-only detection result. -/
theorem gX_detect :
    detect dcfgX isoZero gX (extractFeatures id 1 1 gX 1 3) 1 3 =
    some ⟨combineScores dcfgX.weights.get
        [(DetectorName.zscore,
          runZscoreDetector dcfgX.zscoreCfg 1 3 (zScoreF id gX 1 3 1))],
      fun i j =>
        rGtB (combineScores dcfgX.weights.get
          [(DetectorName.zscore,
            runZscoreDetector dcfgX.zscoreCfg 1 3 (zScoreF id gX 1 3 1))] i j)
          dcfgX.anomalyThreshold && (gX i j).isSome,
      [(DetectorName.zscore,
        runZscoreDetector dcfgX.zscoreCfg 1 3 (zScoreF id gX 1 3 1))]⟩ := rfl

/-- Counterexample to claim C7 as stated.  On the spike grid with a fixed
configuration and fixed oracles, two invocations of the analysis produce
*different* anomaly lists: each run draws fresh `uuid4` identifiers (and a
fresh `created_at`), modelled by the two entropy streams, so the anomaly
`id` fields differ even though every other field agrees. -/
theorem C7_fresh_ids_change_output :
    runAnalysis id 1 1 dcfgX pcfgX isoZero geomZero eZero cZero gX 1 3 ≠
    runAnalysis id 1 1 dcfgX pcfgX isoZero geomZero eOne cZero gX 1 3 := by
  have hrun : ∀ e, runAnalysis id 1 1 dcfgX pcfgX isoZero geomZero e cZero
      gX 1 3 =
      some [mkAnomaly id pcfgX geomZero
        (combineScores dcfgX.weights.get
          [(DetectorName.zscore,
            runZscoreDetector dcfgX.zscoreCfg 1 3 (zScoreF id gX 1 3 1))])
        [(DetectorName.zscore,
          runZscoreDetector dcfgX.zscoreCfg 1 3 (zScoreF id gX 1 3 1))]
        gX 1 3 e cZero 0 [(0, 1)]] := by
    intro e
    unfold runAnalysis
    rw [gX_detect]
    simp only [Option.map_some']
    exact congrArg some (gX_polygonize e cZero)
  rw [hrun eZero, hrun eOne]
  intro heq
  have hid := congrArg (fun o => o.map (List.map AnomalyE.id)) heq
  simp only [Option.map_some', List.map_cons, List.map_nil] at hid
  simp [mkAnomaly, eZero, eOne] at hid

/-- Counterexample to claim C2 as stated.  With the configured z-score
weight set to `-0.3` (a legal configuration value), the combined surface at
the valid spike cell is `-0.3`, outside `[0, 1]`: `_combine_scores` leaves
the weighted sum unnormalised because the weight total is not positive. -/
theorem C2_negative_weight_escapes_unit_interval :
    (detect cfgNeg isoZero gX (extractFeatures id 1 1 gX 1 3) 1 3).map
      (fun r => r.scoreGrid 0 1) = some (some (-3/10)) ∧
    (gX 0 1).isSome = true ∧ ¬ (0 ≤ (-3/10 : ℚ)) := by
  refine ⟨?_, rfl, by norm_num⟩
  have hdet : detect cfgNeg isoZero gX (extractFeatures id 1 1 gX 1 3) 1 3 =
      some ⟨combineScores cfgNeg.weights.get
          [(DetectorName.zscore,
            runZscoreDetector cfgNeg.zscoreCfg 1 3 (zScoreF id gX 1 3 1))],
        fun i j =>
          rGtB (combineScores cfgNeg.weights.get
            [(DetectorName.zscore,
              runZscoreDetector cfgNeg.zscoreCfg 1 3 (zScoreF id gX 1 3 1))] i j)
            cfgNeg.anomalyThreshold && (gX i j).isSome,
        [(DetectorName.zscore,
          runZscoreDetector cfgNeg.zscoreCfg 1 3 (zScoreF id gX 1 3 1))]⟩ := rfl
  rw [hdet]
  simp only [Option.map_some']
  refine congrArg some ?_
  show combineScores cfgNeg.weights.get
    [(DetectorName.zscore,
      runZscoreDetector cfgNeg.zscoreCfg 1 3 (zScoreF id gX 1 3 1))] 0 1 =
    some (-3/10)
  simp only [combineScores, List.foldl_cons, List.foldl_nil]
  rw [show cfgNeg.zscoreCfg = dcfgX.zscoreCfg from rfl, gX_zscore_surface.2.1]
  norm_num [WeightsCfg.get, cfgNeg, rMul, rAdd, rDiv]

/-- Witness for the amended claim C2 at the spike grid and the default
(nonnegative-weight, positive-threshold) configuration. -/
theorem C2_combined_in_unit_interval_witness :
    ∃ v, combineScores dcfgX.weights.get
      [(DetectorName.zscore,
        runZscoreDetector dcfgX.zscoreCfg 1 3 (zScoreF id gX 1 3 1))] 0 1 =
      some v ∧ 0 ≤ v ∧ v ≤ 1 := by
  have h := C2_combined_in_unit_interval dcfgX isoZero gX
    (extractFeatures id 1 1 gX 1 3) 1 3 _
    (by norm_num [dcfgX]) (by norm_num [dcfgX])
    (by norm_num [dcfgX]) (by norm_num [dcfgX]) gX_detect 0 1 rfl
  exact h

/-- Witness for claim C10 at the spike grid: the combined surface of the
successful detection is defined everywhere and zero at the out-of-row
invalid cells. -/
theorem C10_combined_defined_witness :
    ∃ r, detect dcfgX isoZero gX (extractFeatures id 1 1 gX 1 3) 1 3 =
        some r ∧
      (∀ i j, (r.scoreGrid i j).isSome = true) ∧
      (∀ i j, gX i j = none → r.scoreGrid i j = some 0) := by
  refine ⟨_, gX_detect, ?_, ?_⟩
  · exact (C10_combined_defined_and_zero_on_invalid id 1 1 dcfgX isoZero gX
      1 3 _ gX_detect).1
  · exact (C10_combined_defined_and_zero_on_invalid id 1 1 dcfgX isoZero gX
      1 3 _ gX_detect).2

/-- Witness for claim C8 at the spike grid: the emitted anomaly's pixel
count meets the configured minimum area. -/
theorem C8_small_components_excluded_witness :
    ∃ a ∈ polygonize id pcfgX geomZero
      (combineScores dcfgX.weights.get
        [(DetectorName.zscore,
          runZscoreDetector dcfgX.zscoreCfg 1 3 (zScoreF id gX 1 3 1))])
      [(DetectorName.zscore,
        runZscoreDetector dcfgX.zscoreCfg 1 3 (zScoreF id gX 1 3 1))]
      gX 1 3 eZero cZero,
      pcfgX.minArea ≤ a.explanation.pixelCount := by
  refine ⟨mkAnomaly id pcfgX geomZero
      (combineScores dcfgX.weights.get
        [(DetectorName.zscore,
          runZscoreDetector dcfgX.zscoreCfg 1 3 (zScoreF id gX 1 3 1))])
      [(DetectorName.zscore,
        runZscoreDetector dcfgX.zscoreCfg 1 3 (zScoreF id gX 1 3 1))]
      gX 1 3 eZero cZero 0 [(0, 1)], ?_, ?_⟩
  · rw [gX_polygonize eZero cZero]
    exact List.mem_cons_self _ _
  · exact (C8_small_components_excluded id pcfgX geomZero _ _ gX 1 3 eZero
      cZero _ (by rw [gX_polygonize eZero cZero]; exact List.mem_cons_self _ _)).1

/-- Witness for claim C9 at the spike grid: the emitted anomaly's
probability is defined and exceeds the anomaly threshold. -/
theorem C9_probability_above_threshold_witness :
    ∃ a ∈ polygonize id pcfgX geomZero
      (combineScores dcfgX.weights.get
        [(DetectorName.zscore,
          runZscoreDetector dcfgX.zscoreCfg 1 3 (zScoreF id gX 1 3 1))])
      [(DetectorName.zscore,
        runZscoreDetector dcfgX.zscoreCfg 1 3 (zScoreF id gX 1 3 1))]
      gX 1 3 eZero cZero,
      ∃ p, a.anomalyProbability = some p ∧ pcfgX.anomalyThreshold < p := by
  refine ⟨mkAnomaly id pcfgX geomZero
      (combineScores dcfgX.weights.get
        [(DetectorName.zscore,
          runZscoreDetector dcfgX.zscoreCfg 1 3 (zScoreF id gX 1 3 1))])
      [(DetectorName.zscore,
        runZscoreDetector dcfgX.zscoreCfg 1 3 (zScoreF id gX 1 3 1))]
      gX 1 3 eZero cZero 0 [(0, 1)], ?_, ?_⟩
  · rw [gX_polygonize eZero cZero]
    exact List.mem_cons_self _ _
  · exact C9_probability_above_threshold id pcfgX geomZero _ _ gX 1 3 eZero
      cZero _ (by rw [gX_polygonize eZero cZero]; exact List.mem_cons_self _ _)

/-- Claim C3 (code bug), evaluated at the failing input: a 2-by-2 grid with
every cell nodata.  `compute_statistics` does return the undefined record
(`None` fields, `valid_count` 0), and with the isolation forest disabled
detection and polygonization do return an empty anomaly list — but with
the isolation forest *enabled*, as it is in the default configuration,
`_run_isolation_forest` builds a zero-row feature matrix on which
`model.fit` / `scores.min()` raise, so the pipeline errors instead of
returning the empty list the claim promises. -/
theorem C3_all_invalid_grid :
    computeStatistics id gAll 2 2 = ⟨none, none, none, none, none, 0, 4, 4⟩ ∧
    runIsolationForest isoZero gAll (extractFeatures id 2 1 gAll 2 2) 2 2 =
      none ∧
    detect {} isoZero gAll (extractFeatures id 2 1 gAll 2 2) 2 2 = none ∧
    (detect dcfgX isoZero gAll (extractFeatures id 2 1 gAll 2 2) 2 2).map
      (fun r => polygonize id pcfgX geomZero r.scoreGrid r.results gAll 2 2
        eZero cZero) = some [] := by
  have hiso : runIsolationForest isoZero gAll
      (extractFeatures id 2 1 gAll 2 2) 2 2 = none := by
    unfold runIsolationForest
    simp [validCellsOf, allCells, List.range_succ, gAll]
  refine ⟨?_, hiso, ?_, ?_⟩
  · simp only [computeStatistics]
    norm_num [allCells, List.range_succ, gAll]
  · unfold detect
    rw [if_pos (show ({} : DetectorCfg).isoEnabled = true from rfl), hiso]
    rfl
  · have hdet : detect dcfgX isoZero gAll (extractFeatures id 2 1 gAll 2 2)
        2 2 =
        some ⟨combineScores dcfgX.weights.get
            [(DetectorName.zscore,
              runZscoreDetector dcfgX.zscoreCfg 2 2 (zScoreF id gAll 2 2 2))],
          fun i j =>
            rGtB (combineScores dcfgX.weights.get
              [(DetectorName.zscore,
                runZscoreDetector dcfgX.zscoreCfg 2 2
                  (zScoreF id gAll 2 2 2))] i j)
              dcfgX.anomalyThreshold && (gAll i j).isSome,
          [(DetectorName.zscore,
            runZscoreDetector dcfgX.zscoreCfg 2 2 (zScoreF id gAll 2 2 2))]⟩ :=
      rfl
    rw [hdet]
    simp only [Option.map_some']
    have hz : ∀ i j : ℕ, zScoreF id gAll 2 2 2 i j = none := by
      intro i j
      simp [zScoreF, gAll]
    have hsurf : ∀ i j : ℕ, runZscoreDetector dcfgX.zscoreCfg 2 2
        (zScoreF id gAll 2 2 2) i j = some 0 := by
      intro i j
      simp only [runZscoreDetector]
      norm_num [dcfgX, allCells, List.range_succ, hz]
    have hsc : ∀ i j : ℕ, combineScores dcfgX.weights.get
        [(DetectorName.zscore,
          runZscoreDetector dcfgX.zscoreCfg 2 2 (zScoreF id gAll 2 2 2))] i j =
        some 0 := by
      intro i j
      simp only [combineScores, List.foldl_cons, List.foldl_nil]
      rw [hsurf i j]
      norm_num [WeightsCfg.get, dcfgX, rMul, rAdd, rDiv]
    have hmask : ∀ c : Cell, rGtB (combineScores dcfgX.weights.get
        [(DetectorName.zscore,
          runZscoreDetector dcfgX.zscoreCfg 2 2 (zScoreF id gAll 2 2 2))]
          c.1 c.2) pcfgX.anomalyThreshold = false := by
      intro c
      rw [hsc]
      norm_num [rGtB, pcfgX]
    have hcomps : componentsOf (fun c =>
        rGtB (combineScores dcfgX.weights.get
          [(DetectorName.zscore,
            runZscoreDetector dcfgX.zscoreCfg 2 2 (zScoreF id gAll 2 2 2))]
            c.1 c.2) pcfgX.anomalyThreshold) 2 2 = [] := by
      simp only [componentsOf, allCells, List.range_succ, List.range_zero,
        List.map_nil, List.map_cons, List.flatMap_cons, List.flatMap_nil,
        List.nil_append, List.append_nil, List.foldl_cons, List.foldl_nil]
      norm_num [hmask]
    simp only [polygonize]
    rw [if_neg (show ¬ 1 < pcfgX.minArea by norm_num [pcfgX])]
    rw [hcomps]
    rfl

end Geosa
